import Mathlib

/-!
Verification of the upsert reconciliation core of the CPT automation scripts.

The definitions below are a shallow embedding of
`backend/app/cpt_automated_scripts/database_utils.py` (record preparation,
chunked composite-key upsert, early-exit sampling) and of the intra-batch
deduplication block of `backend/app/cpt_automated_scripts/Novitas/database.py`
(`SupabaseHandler.insert_records`).

Python records are dictionaries of primitive values; we model the primitive
values by `Val` (null, string, integer), and a record by a structure whose
fields are `Option Val`: `Option.none` models an absent key, `some Val.none`
models a key that is present and bound to Python `None`.  The `payload` field
stands for all remaining data columns (descriptions, rates, ...) that the
reconciliation logic carries along but never inspects.

The Supabase client is modelled by a record of the six storage operations the
code uses, in state-passing style (`Db σ`); `memDb` is the in-memory reference
store with the composite-key uniqueness constraint
`(source, code, release_date, geozip)` enforced on inserts.
-/

namespace CPT

/-- A Python primitive value as it appears in the record dictionaries:
`None`, a string, or an integer. -/
inductive Val where
  | none
  | vstr (s : String)
  | vint (n : Int)
deriving DecidableEq, Repr

/-- Python truthiness of a `Val`: `None`, `""` and `0` are falsy. -/
def truthy : Val → Bool
  | .none => false
  | .vstr s => !(s == "")
  | .vint n => !(n == 0)

/-- Python `str()` of a `Val`. -/
def pyStr : Val → String
  | .none => "None"
  | .vstr s => s
  | .vint n => toString n

/-- A record dictionary.  An `Option Val` field is `Option.none` when the key
is absent from the dictionary and `some v` when the key is present with value
`v`.  `payload` abstracts all further columns (descriptions, rate fields, ...)
that the reconciliation code passes through unchanged. -/
structure Rec where
  code : Option Val := Option.none
  source : Option Val := Option.none
  geozip : Option Val := Option.none
  release_date : Option Val := Option.none
  rel_date : Option Val := Option.none
  payload : Nat := 0
deriving DecidableEq, Repr

/-- Python `record.get(key)`: the bound value, or `None` when absent. -/
def pyGet (o : Option Val) : Val := o.getD Val.none

/-- Python's `str.strip()`: drop leading and trailing whitespace. -/
def pyStrip (s : String) : String :=
  String.mk
    (((s.data.dropWhile Char.isWhitespace).reverse.dropWhile
      Char.isWhitespace).reverse)

/-- The rejection test opening `prepare_record_for_insertion`
(database_utils.py lines 64-66): `not code or (isinstance(code, str) and
code.strip() == '')`. -/
def codeRejected (record : Rec) : Bool :=
  let code := pyGet record.code
  !(truthy code) ||
    (match code with | .vstr s => pyStrip s == "" | _ => false)

/-- `prepare_record_for_insertion` (database_utils.py, lines 46-93).
Filters out records with a null/empty `code`, stamps `source`, normalises
`geozip`, resolves `release_date` from the record itself, the stored
`existing_release_date`, or the record's `rel_date`, and returns `Option.none`
(Python `None`) when the record must be skipped. -/
def prepare_record_for_insertion (record : Rec) (source_name : String)
    (existing_release_date : Val := Val.none) (has_geozip : Bool := false) :
    Option Rec :=
  -- Filter out records with null or empty code
  if codeRejected record then
    Option.none
  else
    -- Add source field
    let r1 : Rec := { record with source := some (.vstr source_name) }
    -- Handle geozip
    let r2 : Rec :=
      if !has_geozip then
        { r1 with geozip := some .none }
      else if r1.geozip.isNone || !(truthy (pyGet r1.geozip)) then
        { r1 with geozip := some .none }
      else r1
    -- Handle release_date
    if r2.release_date.isNone || !(truthy (pyGet r2.release_date)) then
      if truthy existing_release_date then
        some { r2 with release_date := some existing_release_date }
      else if r2.rel_date.isSome && truthy (pyGet r2.rel_date) then
        some { r2 with release_date := r2.rel_date }
      else
        Option.none
    else
      some r2

/-- The composite key tuple used by the intra-batch deduplication of
`SupabaseHandler.insert_records` (Novitas/database.py, lines 99-107):
`geozip = record.get('geozip') or None` and
`release_date = record.get('release_date') or record.get('rel_date', 'Unknown')`,
then `key = (source, code, release_date, geozip)`. -/
def dedupKey (r : Rec) : Val × Val × Val × Val :=
  let geozip := if truthy (pyGet r.geozip) then pyGet r.geozip else Val.none
  let release_date :=
    if truthy (pyGet r.release_date) then pyGet r.release_date
    else match r.rel_date with
      | some v => v
      | Option.none => Val.vstr "Unknown"
  (pyGet r.source, pyGet r.code, release_date, geozip)

/-- One step state of the dedup loop: output list so far, the `seen_keys`
dictionary (key to index into the output list), and the duplicate counter. -/
def dedupGo (seen : List ((Val × Val × Val × Val) × Nat)) (out : List Rec)
    (dups : Nat) : List Rec → List Rec × List ((Val × Val × Val × Val) × Nat) × Nat
  | [] => (out, seen, dups)
  | r :: rest =>
    let k := dedupKey r
    match seen.find? (fun p => decide (p.1 = k)) with
    | some p => dedupGo seen (out.set p.2 r) (dups + 1) rest
    | Option.none => dedupGo ((k, out.length) :: seen) (out ++ [r]) dups rest

/-- The intra-batch deduplication block of `insert_records`
(Novitas/database.py, lines 95-115): returns the deduplicated record list and
the `duplicates_removed` counter. -/
def dedupRecords (records : List Rec) : List Rec × Nat :=
  let s := dedupGo [] [] 0 records
  (s.1, s.2.2)

/-- The raw composite key claimed by the spec for deduplication and storage
uniqueness: `(source, code, release_date, geozip)`, each read with `.get`. -/
def dbKey (r : Rec) : Val × Val × Val × Val :=
  (pyGet r.source, pyGet r.code, pyGet r.release_date, pyGet r.geozip)

/-- First-seen order of the distinct elements of a list. -/
def firstSeen {α : Type} [DecidableEq α] : List α → List α
  | [] => []
  | a :: l => a :: firstSeen (l.filter (· ≠ a))
termination_by l => l.length
decreasing_by
  simp only [List.length_cons]
  exact Nat.lt_succ_of_le (List.length_filter_le _ _)

/-- The `seen_keys` dictionary contents determined by an output list's keys:
key-to-index bindings, newest first. -/
def revEnum {α : Type} (ks : List α) : List (α × Nat) :=
  (ks.enum.map (fun p => (p.2, p.1))).reverse

/-- A record as produced by `prepare_record_for_insertion`: its
`release_date` is truthy, and its `geozip` is either Python `None` or truthy.
Under this invariant the dedup key coincides with the raw composite key. -/
def PreparedShape (r : Rec) : Prop :=
  truthy (pyGet r.release_date) = true ∧
    (pyGet r.geozip = Val.none ∨ truthy (pyGet r.geozip) = true)

instance (r : Rec) : Decidable (PreparedShape r) := by
  unfold PreparedShape; infer_instance

/-! ### The storage collaborator -/

/-- How a storage call fails: a uniqueness-constraint violation (Supabase 409
Conflict / duplicate key), or any other error. -/
inductive DbErr where
  | conflict409
  | otherErr
deriving DecidableEq, Repr

/-- The storage operations `database_utils.py` performs through the Supabase
client, in state-passing style over an abstract store state `σ`.
`selectByKeys` is `select("id, code, source, release_date, geozip")
.eq("source", s).eq("release_date", d).in_("code", codes)`;
`countBySourceDate` is `select("id", count="exact").eq("source", s)
.eq("release_date", d)`; the remaining three are batch insert, single insert
and update-by-id. -/
structure Db (σ : Type) where
  selectByKeys : σ → String → Val → List Val → Except DbErr (List (Nat × Rec))
  countBySourceDate : σ → String → Val → Except DbErr Nat
  insertMany : σ → List Rec → Except DbErr σ
  insertOne : σ → Rec → Except DbErr σ
  updateById : σ → Nat → Rec → Except DbErr σ

/-- The in-memory reference store: rows with a surrogate `id`, plus the next
fresh id. -/
structure Store where
  rows : List (Nat × Rec) := []
  nextId : Nat := 0
deriving Repr

/-- The empty store. -/
def emptyStore : Store := {}

/-- The composite keys of all rows of a store. -/
def storeKeys (st : Store) : List (Val × Val × Val × Val) :=
  st.rows.map (fun p => dbKey p.2)

/-- Whether inserting `r` into `st` violates the composite-key uniqueness
constraint `(source, code, release_date, geozip)`. -/
def conflictsWith (st : Store) (r : Rec) : Bool :=
  st.rows.any (fun p => decide (dbKey p.2 = dbKey r))

/-- In-memory `selectByKeys`: rows whose `source` equals the given source
name, whose `release_date` equals the given value, and whose `code` is in the
given list (SQL `NULL` never compares equal, which the `Val` equality on the
stored `Val.none` gives for free against the truthy query values). -/
def memSelect (st : Store) (src : String) (rd : Val) (codes : List Val) :
    Except DbErr (List (Nat × Rec)) :=
  .ok (st.rows.filter (fun p =>
    decide (pyGet p.2.source = Val.vstr src) &&
      decide (pyGet p.2.release_date = rd) &&
      decide (pyGet p.2.code ∈ codes)))

/-- In-memory exact count of rows matching `(source, release_date)`. -/
def memCountFn (st : Store) (src : String) (rd : Val) : Nat :=
  (st.rows.filter (fun p =>
    decide (pyGet p.2.source = Val.vstr src) &&
      decide (pyGet p.2.release_date = rd))).length

/-- In-memory batch insert: atomic, rejecting the batch with a uniqueness
violation when any row conflicts with the store or when two batch rows share a
composite key. -/
def memInsertMany (st : Store) (rs : List Rec) : Except DbErr Store :=
  if rs.any (fun r => conflictsWith st r) || !(rs.map dbKey).Nodup then
    .error .conflict409
  else
    .ok { rows := st.rows ++ rs.enumFrom st.nextId,
          nextId := st.nextId + rs.length }

/-- In-memory single insert: a uniqueness violation exactly when the composite
key already exists. -/
def memInsertOne (st : Store) (r : Rec) : Except DbErr Store :=
  if conflictsWith st r then .error .conflict409
  else .ok { rows := st.rows ++ [(st.nextId, r)], nextId := st.nextId + 1 }

/-- In-memory update by id: replaces the matching row's record. -/
def memUpdateById (st : Store) (id : Nat) (r : Rec) : Except DbErr Store :=
  .ok { st with rows := st.rows.map (fun p => if p.1 = id then (id, r) else p) }

/-- The in-memory storage collaborator. -/
def memDb : Db Store :=
  { selectByKeys := memSelect
    countBySourceDate := fun st src rd => .ok (memCountFn st src rd)
    insertMany := memInsertMany
    insertOne := memInsertOne
    updateById := memUpdateById }

/-! ### `_process_chunk` -/

/-- The normalized lookup key `_process_chunk` builds on both sides of the
existence check: `(source, str(code), release_date, geozip)` (database_utils.py
lines 313-320 and 333-335). -/
def normKey (r : Rec) : Val × String × Val × Val :=
  (pyGet r.source, pyStr (pyGet r.code), pyGet r.release_date, pyGet r.geozip)

/-- Python dictionary lookup over an insertion-ordered association list: the
latest binding of the key wins. -/
def pyDictLookup {κ ν : Type} [DecidableEq κ] (l : List (κ × ν)) (k : κ) :
    Option ν :=
  l.foldl (fun acc p => if p.1 = k then some p.2 else acc) Option.none

/-- `codes_in_chunk`: the truthy `code` values of the chunk
(database_utils.py line 293). -/
def chunkCodes (chunk : List Rec) : List Val :=
  chunk.filterMap (fun r => if truthy (pyGet r.code) then some (pyGet r.code)
    else Option.none)

/-- `release_date_in_chunk`: the first chunk record's `release_date`, or
`None` for an empty chunk (database_utils.py line 294). -/
def chunkRd (chunk : List Rec) : Val :=
  match chunk with
  | [] => Val.none
  | r :: _ => pyGet r.release_date

/-- The `existing_records` dictionary of `_process_chunk` (database_utils.py
lines 297-324): queried only when the chunk has truthy codes and a truthy
first `release_date`; empty when the query raises; maps the normalized key of
each returned row to its storage id (later rows overwrite earlier bindings). -/
def existingMap {σ : Type} (db : Db σ) (st : σ) (src : String)
    (chunk : List Rec) : List ((Val × String × Val × Val) × Nat) :=
  if chunkCodes chunk ≠ [] ∧ truthy (chunkRd chunk) = true then
    match db.selectByKeys st src (chunkRd chunk) (chunkCodes chunk) with
    | .ok rows => rows.map (fun p => (normKey p.2, p.1))
    | .error _ => []
  else []

/-- The partition of a chunk into `records_to_insert` and
`records_to_update` (database_utils.py lines 327-344); an update record
carries the storage id the lookup attached to it. -/
def classifyChunk (ex : List ((Val × String × Val × Val) × Nat))
    (chunk : List Rec) : List Rec × List (Nat × Rec) :=
  match chunk with
  | [] => ([], [])
  | r :: rest =>
    let (ins, upd) := classifyChunk ex rest
    match pyDictLookup ex (normKey r) with
    | some id => (ins, (id, r) :: upd)
    | Option.none => (r :: ins, upd)

/-- The per-record fallback insert loop used when the batch insert fails
(database_utils.py lines 353-366): a successful insert counts as inserted, a
uniqueness violation counts as an update, any other error is skipped
silently. -/
def insertFallback {σ : Type} (db : Db σ) (st : σ) :
    List Rec → Nat × Nat × σ
  | [] => (0, 0, st)
  | r :: rs =>
    match db.insertOne st r with
    | .ok st' =>
      let t := insertFallback db st' rs
      (t.1 + 1, t.2.1, t.2.2)
    | .error .conflict409 =>
      let t := insertFallback db st rs
      (t.1, t.2.1 + 1, t.2.2)
    | .error .otherErr => insertFallback db st rs

/-- The per-record outcomes of the fallback insert loop, in order: the result
of each individual insert as the loop actually runs. -/
def fallbackOutcomes {σ : Type} (db : Db σ) (st : σ) :
    List Rec → List (Except DbErr Unit)
  | [] => []
  | r :: rs =>
    match db.insertOne st r with
    | .ok st' => .ok () :: fallbackOutcomes db st' rs
    | .error e => .error e :: fallbackOutcomes db st rs

/-- The insert phase of `_process_chunk` (database_utils.py lines 347-366):
batch insert, falling back to individual inserts on batch failure. -/
def insertPhase {σ : Type} (db : Db σ) (st : σ) (toIns : List Rec) :
    Nat × Nat × σ :=
  if toIns = [] then (0, 0, st)
  else
    match db.insertMany st toIns with
    | .ok st' => (toIns.length, 0, st')
    | .error _ => insertFallback db st toIns

/-- The update phase of `_process_chunk` (database_utils.py lines 369-379):
update each record by its attached id; a failed update is logged and skipped.
Returns the number of successful updates. -/
def updatePhase {σ : Type} (db : Db σ) (st : σ) :
    List (Nat × Rec) → Nat × σ
  | [] => (0, st)
  | (id, r) :: rest =>
    match db.updateById st id r with
    | .ok st' =>
      let t := updatePhase db st' rest
      (t.1 + 1, t.2)
    | .error _ => updatePhase db st rest

/-- `_process_chunk` (database_utils.py lines 279-381): existence check,
partition into inserts and updates, batch insert with per-record fallback,
then per-record updates.  Returns `(chunk_inserted, chunk_updated, store)`. -/
def processChunk {σ : Type} (db : Db σ) (st : σ) (src : String)
    (chunk : List Rec) : Nat × Nat × σ :=
  let ex := existingMap db st src chunk
  let parts := classifyChunk ex chunk
  let insRes := insertPhase db st parts.1
  let updRes := updatePhase db insRes.2.2 parts.2
  (insRes.1, insRes.2.1 + updRes.1, updRes.2)

/-! ### `upsert_records_with_composite_key` -/

/-- `_check_all_records_exist` (database_utils.py lines 234-276): sum the
exact counts of rows matching `(source, release_date)` over the distinct
truthy `release_date` values of the records; true when the sum reaches the
record count; false when there is no truthy `release_date` or when a count
query raises. -/
def checkAllRecordsExist {σ : Type} (db : Db σ) (st : σ) (src : String)
    (records : List Rec) : Bool :=
  let release_dates :=
    ((records.filterMap (fun r =>
      if truthy (pyGet r.release_date) then some (pyGet r.release_date)
      else Option.none)).eraseDups)
  if release_dates = [] then false
  else
    match release_dates.foldlM (fun acc rd =>
        (db.countBySourceDate st src rd).map (acc + ·)) 0 with
    | .ok total => decide (records.length ≤ total)
    | .error _ => false

/-- Fixed-size chunking of the record list, as `records[i:i + chunk_size]`
produces it. -/
def toChunks (cs : Nat) (l : List Rec) : List (List Rec) :=
  if cs = 0 then [l]
  else if h : l = [] then []
  else l.take cs :: toChunks cs (l.drop cs)
termination_by l.length
decreasing_by
  have hl : 0 < l.length := List.length_pos.mpr h
  simp only [List.length_drop]
  omega

/-- The outcome of one guarded chunk: the counts on success, or the failure
the `except` clause catches; either way the store the chunk left behind. -/
abbrev ChunkProc (σ : Type) := σ → List Rec → (Except Unit (Nat × Nat)) × σ

/-- The guarded chunk loop of `upsert_records_with_composite_key`
(database_utils.py lines 190-213): process each chunk, numbering from `num`;
a chunk that raises adds its full length to the failure tally and its number
to `failed_chunks`, and the loop continues.  Returns
`(inserted, updated, failed, failed_chunks, store)`. -/
def chunkLoop {σ : Type} (proc : ChunkProc σ) (st : σ) :
    List (List Rec) → Nat → Nat × Nat × Nat × List Nat × σ
  | [], _ => (0, 0, 0, [], st)
  | c :: rest, num =>
    match proc st c with
    | (.ok r, st') =>
      let t := chunkLoop proc st' rest (num + 1)
      (r.1 + t.1, r.2 + t.2.1, t.2.2.1, t.2.2.2.1, t.2.2.2.2)
    | (.error _, st') =>
      let t := chunkLoop proc st' rest (num + 1)
      (t.1, t.2.1, t.2.2.1 + c.length, num :: t.2.2.2.1, t.2.2.2.2)

/-- The trace of the guarded chunk loop: each chunk paired with the outcome
`proc` produced for it as the loop actually runs. -/
def chunkTrace {σ : Type} (proc : ChunkProc σ) (st : σ) :
    List (List Rec) → List (List Rec × Except Unit (Nat × Nat))
  | [] => []
  | c :: rest =>
    let r := proc st c
    (c, r.1) :: chunkTrace proc r.2 rest

/-- The final status string computed at database_utils.py line 219:
`"success"` when nothing failed, else `"partial_success"`. -/
def statusOf (total_failed : Nat) : String :=
  if total_failed = 0 then "success" else "partial_success"

/-- The chunk processor the engine really runs: `_process_chunk`, which never
raises on well-formed records and always returns its counts. -/
def realProc {σ : Type} (db : Db σ) (src : String) : ChunkProc σ :=
  fun st chunk =>
    let t := processChunk db st src chunk
    (.ok (t.1, t.2.1), t.2.2)

/-- The structured result dictionary `upsert_records_with_composite_key`
returns. -/
structure UpsertResult where
  status : String
  records_inserted : Nat
  records_updated : Nat
  records_upserted : Nat
  records_failed : Nat
  failed_chunks : List Nat
deriving DecidableEq, Repr

/-- `upsert_records_with_composite_key` (database_utils.py lines 96-231):
empty-input guard, 50-record sample with the `already_synced` early exit, then
the guarded chunk loop over the remaining records. -/
def upsert_records_with_composite_key {σ : Type} (db : Db σ) (st : σ)
    (source_name : String) (records : List Rec) (chunk_size : Nat := 1000) :
    UpsertResult × σ :=
  if records = [] then
    (⟨"no_records", 0, 0, 0, 0, []⟩, st)
  else
    let SAMPLE_SIZE := 50
    if SAMPLE_SIZE < records.length then
      let sample := records.take SAMPLE_SIZE
      let s := processChunk db st source_name sample
      if s.1 = 0 ∧ 0 < s.2.1 ∧
          checkAllRecordsExist db s.2.2 source_name records = true then
        (⟨"already_synced", 0, s.2.1, s.2.1, 0, []⟩, s.2.2)
      else
        let t := chunkLoop (realProc db source_name) s.2.2
          (toChunks chunk_size (records.drop SAMPLE_SIZE)) 1
        (⟨statusOf t.2.2.1, s.1 + t.1, s.2.1 + t.2.1,
          s.1 + t.1 + (s.2.1 + t.2.1), t.2.2.1, t.2.2.2.1⟩, t.2.2.2.2)
    else
      let t := chunkLoop (realProc db source_name) st
        (toChunks chunk_size records) 1
      (⟨statusOf t.2.2.1, t.1, t.2.1, t.1 + t.2.1, t.2.2.1, t.2.2.2.1⟩,
        t.2.2.2.2)

/-- `get_existing_release_date` (database_utils.py lines 12-42) against the
in-memory store: the `release_date` of the first row matching the source, when
truthy. -/
def get_existing_release_date (st : Store) (src : String) : Val :=
  match st.rows.find? (fun p => decide (pyGet p.2.source = Val.vstr src)) with
  | some p => if truthy (pyGet p.2.release_date) then pyGet p.2.release_date
      else Val.none
  | Option.none => Val.none

/-! ### Outcome counting and store invariants used in the statements -/

/-- Number of successful outcomes of a fallback insert run. -/
def countOks (l : List (Except DbErr Unit)) : Nat :=
  (l.filter (fun o => match o with | .ok _ => true | .error _ => false)).length

/-- Number of uniqueness-violation outcomes of a fallback insert run. -/
def count409 (l : List (Except DbErr Unit)) : Nat :=
  (l.filter (fun o => match o with
    | .error .conflict409 => true | _ => false)).length

/-- Number of non-uniqueness error outcomes of a fallback insert run. -/
def countOtherErrs (l : List (Except DbErr Unit)) : Nat :=
  (l.filter (fun o => match o with
    | .error .otherErr => true | _ => false)).length

/-- Every row of the store holds one of the run's records. -/
def RowsFrom (records : List Rec) (st : Store) : Prop :=
  ∀ p ∈ st.rows, p.2 ∈ records

/-- Every record's composite key is present among the stored rows. -/
def KeysCover (records : List Rec) (st : Store) : Prop :=
  ∀ r ∈ records, dbKey r ∈ storeKeys st

/-- Surrogate ids are unique and below the next fresh id. -/
def StoreWf (st : Store) : Prop :=
  (st.rows.map Prod.fst).Nodup ∧ ∀ p ∈ st.rows, p.1 < st.nextId

/-- The id/composite-key view of the store's rows, in row order. -/
def KeyMap (st : Store) : List (Nat × (Val × Val × Val × Val)) :=
  st.rows.map (fun p => (p.1, dbKey p.2))

/-- A record batch whose `code` values are consistently typed: two records
whose codes print the same under `str()` carry equal code values.  One
source's extractor emits codes of a single type, so its batches satisfy
this. -/
def CodeConsistent (records : List Rec) : Prop :=
  ∀ r ∈ records, ∀ r' ∈ records,
    pyStr (pyGet r.code) = pyStr (pyGet r'.code) → pyGet r.code = pyGet r'.code

instance (records : List Rec) : Decidable (CodeConsistent records) := by
  unfold CodeConsistent; infer_instance

/-! ### Concrete inputs used by the witnesses and counterexamples -/

/-- A record with a null geozip. -/
def recNullGz : Rec :=
  { code := some (.vstr "99213"), source := some (.vstr "S"),
    release_date := some (.vstr "January 2025"), geozip := some .none,
    payload := 1 }

/-- The same composite identity with an empty-string geozip and different
payload. -/
def recEmptyGz : Rec := { recNullGz with geozip := some (.vstr ""), payload := 2 }

/-- A record with no `release_date` key and a `rel_date` label, as the
Novitas extractor produces. -/
def recRelOnly : Rec :=
  { code := some (.vstr "99213"), rel_date := some (.vstr "Jan 2025"),
    payload := 3 }

/-- A record whose `release_date` key is present but bound to the empty
string. -/
def recEmptyRd : Rec :=
  { code := some (.vstr "99213"), release_date := some (.vstr ""),
    rel_date := some (.vstr "Jan 2025"), payload := 4 }

/-- A record carrying an extracted geozip `"070"`. -/
def recWithGz : Rec :=
  { code := some (.vstr "99213"), release_date := some (.vstr "D"),
    geozip := some (.vstr "070"), payload := 5 }

/-- What the Preparer makes of `recWithGz` for a geozip-less source. -/
def recWithGzOut : Rec :=
  { recWithGz with source := some (.vstr "X"), geozip := some .none }

/-- A small prepared record for a given code number and release label. -/
def mkRec (i : Nat) (rd : String) : Rec :=
  { code := some (.vstr (toString i)), source := some (.vstr "S"),
    release_date := some (.vstr rd), geozip := some .none, payload := i }

/-- 51 distinct prepared records, enough to trigger the sampling path. -/
def recs51 : List Rec := (List.range 51).map (fun i => mkRec i "D")

/-- Three distinct prepared records. -/
def recs3 : List Rec := (List.range 3).map (fun i => mkRec i "D")

/-- A prepared batch with an intra-batch duplicate: the third record repeats
the first record's composite key with different payload. -/
def recsDup : List Rec :=
  [mkRec 0 "D", mkRec 1 "D", { mkRec 0 "D" with payload := 100 }]

/-- Three chunks of which `badProc` fails exactly the middle one. -/
def chunks3 : List (List Rec) :=
  [[mkRec 0 "D"], [mkRec 1 "D", mkRec 2 "D"], [mkRec 3 "D"]]

/-- A chunk processor that fails exactly on two-record chunks; used to
exercise the failure branch of the guarded chunk loop. -/
def badProc : ChunkProc Unit :=
  fun _ c => (if c.length = 2 then .error () else .ok (c.length, 0), ())

/-- A storage collaborator whose batch insert always fails but which is
otherwise the in-memory store; used to exercise the per-record fallback. -/
def dbBatchFails : Db Store :=
  { memDb with insertMany := fun _ _ => .error .otherErr }

/-- A storage collaborator whose batch insert and individual inserts all fail
with a non-uniqueness error; used to exercise the silent-loss path. -/
def dbInsertsFail : Db Store :=
  { memDb with
    insertMany := fun _ _ => .error .otherErr
    insertOne := fun _ _ => .error .otherErr }

/-- A store holding exactly one row: `recNullGz` under id 0. -/
def storeOneNull : Store := { rows := [(0, recNullGz)], nextId := 1 }

/-- A record with the same composite key as `recNullGz` but a different
`release_date` than `mkRec 7 "D0"`; chunked behind it, its key can never be
found by the chunk's existence query. -/
def recOtherRd : Rec := { recNullGz with payload := 9 }

/-! ## Theorems -/

lemma isNone_eq_false_of_truthy {o : Option Val} (h : truthy (pyGet o) = true) :
    o.isNone = false := by
  cases o with
  | none => simp [pyGet, truthy] at h
  | some v => rfl

lemma isSome_of_truthy {o : Option Val} (h : truthy (pyGet o) = true) :
    o.isSome = true := by
  cases o with
  | none => simp [pyGet, truthy] at h
  | some v => rfl

/-- Master case analysis of `prepare_record_for_insertion`: whenever it
returns a record, that record is the input with `source` stamped, `geozip`
either forced to null or kept truthy under `has_geozip`, and `release_date`
resolved from the record, the existing date, or `rel_date`, in that order. -/
lemma prepare_cases (r : Rec) (src : String) (e : Val) (g : Bool) (r' : Rec)
    (h : prepare_record_for_insertion r src e g = some r') :
    codeRejected r = false ∧
    r'.code = r.code ∧ r'.source = some (.vstr src) ∧
    r'.rel_date = r.rel_date ∧ r'.payload = r.payload ∧
    ((g = true ∧ truthy (pyGet r.geozip) = true ∧ r'.geozip = r.geozip) ∨
      r'.geozip = some Val.none) ∧
    ((truthy (pyGet r.release_date) = true ∧ r'.release_date = r.release_date)
      ∨ (truthy (pyGet r.release_date) = false ∧ truthy e = true ∧
          r'.release_date = some e)
      ∨ (truthy (pyGet r.release_date) = false ∧ truthy e = false ∧
          truthy (pyGet r.rel_date) = true ∧ r'.release_date = r.rel_date)) := by
  by_cases hcr : codeRejected r = true
  · simp [prepare_record_for_insertion, hcr] at h
  · rw [Bool.not_eq_true] at hcr
    refine ⟨hcr, ?_⟩
    by_cases hrd : truthy (pyGet r.release_date) = true
    · -- release_date kept as-is
      have hn := isNone_eq_false_of_truthy hrd
      cases g
      · simp [prepare_record_for_insertion, hcr, hn, hrd] at h
        subst h
        exact ⟨rfl, rfl, rfl, rfl, Or.inr rfl, Or.inl ⟨hrd, rfl⟩⟩
      · by_cases hgz : truthy (pyGet r.geozip) = true
        · simp [prepare_record_for_insertion, hcr, hgz,
            isNone_eq_false_of_truthy hgz, hn, hrd] at h
          subst h
          exact ⟨rfl, rfl, rfl, rfl, Or.inl ⟨rfl, hgz, rfl⟩,
            Or.inl ⟨hrd, rfl⟩⟩
        · rw [Bool.not_eq_true] at hgz
          simp [prepare_record_for_insertion, hcr, hgz, hn, hrd] at h
          subst h
          exact ⟨rfl, rfl, rfl, rfl, Or.inr rfl, Or.inl ⟨hrd, rfl⟩⟩
    · rw [Bool.not_eq_true] at hrd
      by_cases he : truthy e = true
      · -- existing release date reused
        cases g
        · simp [prepare_record_for_insertion, hcr, hrd, he] at h
          subst h
          exact ⟨rfl, rfl, rfl, rfl, Or.inr rfl, Or.inr (Or.inl ⟨hrd, he, rfl⟩)⟩
        · by_cases hgz : truthy (pyGet r.geozip) = true
          · simp [prepare_record_for_insertion, hcr, hgz,
              isNone_eq_false_of_truthy hgz, hrd, he] at h
            subst h
            exact ⟨rfl, rfl, rfl, rfl, Or.inl ⟨rfl, hgz, rfl⟩,
              Or.inr (Or.inl ⟨hrd, he, rfl⟩)⟩
          · rw [Bool.not_eq_true] at hgz
            simp [prepare_record_for_insertion, hcr, hgz, hrd, he] at h
            subst h
            exact ⟨rfl, rfl, rfl, rfl, Or.inr rfl, Or.inr (Or.inl ⟨hrd, he, rfl⟩)⟩
      · rw [Bool.not_eq_true] at he
        by_cases hrl : truthy (pyGet r.rel_date) = true
        · -- rel_date promoted
          have hs := isSome_of_truthy hrl
          cases g
          · simp [prepare_record_for_insertion, hcr, hrd, he, hs, hrl] at h
            subst h
            exact ⟨rfl, rfl, rfl, rfl, Or.inr rfl,
              Or.inr (Or.inr ⟨hrd, he, hrl, rfl⟩)⟩
          · by_cases hgz : truthy (pyGet r.geozip) = true
            · simp [prepare_record_for_insertion, hcr, hgz,
                isNone_eq_false_of_truthy hgz, hrd, he, hs, hrl] at h
              subst h
              exact ⟨rfl, rfl, rfl, rfl, Or.inl ⟨rfl, hgz, rfl⟩,
                Or.inr (Or.inr ⟨hrd, he, hrl, rfl⟩)⟩
            · rw [Bool.not_eq_true] at hgz
              simp [prepare_record_for_insertion, hcr, hgz, hrd, he, hs,
                hrl] at h
              subst h
              exact ⟨rfl, rfl, rfl, rfl, Or.inr rfl,
                Or.inr (Or.inr ⟨hrd, he, hrl, rfl⟩)⟩
        · rw [Bool.not_eq_true] at hrl
          -- no resolvable release date: the record is skipped
          exfalso
          cases g
          · simp [prepare_record_for_insertion, hcr, hrd, he, hrl] at h
          · by_cases hgz : truthy (pyGet r.geozip) = true
            · simp [prepare_record_for_insertion, hcr, hrd, he, hrl, hgz,
                isNone_eq_false_of_truthy hgz] at h
            · rw [Bool.not_eq_true] at hgz
              simp [prepare_record_for_insertion, hcr, hrd, he, hrl, hgz] at h

/-- When none of the three release-date sources is truthy, the record is
skipped (database_utils.py lines 89-91). -/
lemma prepare_skips (r : Rec) (src : String) (e : Val) (g : Bool)
    (hrd : truthy (pyGet r.release_date) = false) (he : truthy e = false)
    (hrl : truthy (pyGet r.rel_date) = false) :
    prepare_record_for_insertion r src e g = Option.none := by
  by_cases hcr : codeRejected r = true
  · simp [prepare_record_for_insertion, hcr]
  · rw [Bool.not_eq_true] at hcr
    cases g
    · simp [prepare_record_for_insertion, hcr, hrd, he, hrl]
    · by_cases hgz : truthy (pyGet r.geozip) = true
      · simp [prepare_record_for_insertion, hcr, hrd, he, hrl, hgz,
          isNone_eq_false_of_truthy hgz]
      · rw [Bool.not_eq_true] at hgz
        simp [prepare_record_for_insertion, hcr, hrd, he, hrl, hgz]

/-- C8 — geozip forcing in the Preparer: whenever
`prepare_record_for_insertion` returns a record, a `has_geozip = false`
source gets `geozip = null` regardless of any extracted value, and a
`has_geozip = true` source gets `geozip = null` whenever the input's geozip
is missing or falsy. -/
theorem prepare_geozip_forcing (r : Rec) (src : String) (e : Val) (g : Bool)
    (r' : Rec) (h : prepare_record_for_insertion r src e g = some r') :
    (g = false → r'.geozip = some Val.none) ∧
      (truthy (pyGet r.geozip) = false → r'.geozip = some Val.none) := by
  rcases (prepare_cases r src e g r' h).2.2.2.2.2.1 with ⟨hg, hgz, _⟩ | hz
  · constructor
    · intro hf; rw [hg] at hf; exact absurd hf (by simp)
    · intro hf; rw [hgz] at hf; exact absurd hf (by simp)
  · exact ⟨fun _ => hz, fun _ => hz⟩

/-- Witness for C8: the spec's scenario — `has_geozip = false` and an input
record carrying `geozip = "070"` comes out with `geozip = null`. -/
theorem prepare_geozip_forcing_witness :
    prepare_record_for_insertion recWithGz "X" Val.none false = some recWithGzOut
      ∧ recWithGzOut.geozip = some Val.none :=
  ⟨by decide,
    (prepare_geozip_forcing recWithGz "X" Val.none false recWithGzOut
      (by decide)).1 rfl⟩

/-- Under a false code rejection and at least one truthy release-date source,
`prepare_record_for_insertion` returns a record. -/
lemma prepare_isSome (r : Rec) (src : String) (e : Val) (g : Bool)
    (hcr : codeRejected r = false)
    (hres : truthy (pyGet r.release_date) = true ∨ truthy e = true ∨
      truthy (pyGet r.rel_date) = true) :
    ∃ r', prepare_record_for_insertion r src e g = some r' := by
  by_cases hrd : truthy (pyGet r.release_date) = true
  · have hn := isNone_eq_false_of_truthy hrd
    cases g
    · simp [prepare_record_for_insertion, hcr, hn, hrd]
    · by_cases hgz : truthy (pyGet r.geozip) = true
      · simp [prepare_record_for_insertion, hcr, hgz,
          isNone_eq_false_of_truthy hgz, hn, hrd]
      · rw [Bool.not_eq_true] at hgz
        simp [prepare_record_for_insertion, hcr, hgz, hn, hrd]
  · rw [Bool.not_eq_true] at hrd
    by_cases he : truthy e = true
    · cases g
      · simp [prepare_record_for_insertion, hcr, hrd, he]
      · by_cases hgz : truthy (pyGet r.geozip) = true
        · simp [prepare_record_for_insertion, hcr, hgz,
            isNone_eq_false_of_truthy hgz, hrd, he]
        · rw [Bool.not_eq_true] at hgz
          simp [prepare_record_for_insertion, hcr, hgz, hrd, he]
    · rw [Bool.not_eq_true] at he
      have hrl : truthy (pyGet r.rel_date) = true := by
        rcases hres with h1 | h2 | h3
        · exact absurd h1 (by simp [hrd])
        · exact absurd h2 (by simp [he])
        · exact h3
      have hs := isSome_of_truthy hrl
      cases g
      · simp [prepare_record_for_insertion, hcr, hrd, he, hs, hrl]
      · by_cases hgz : truthy (pyGet r.geozip) = true
        · simp [prepare_record_for_insertion, hcr, hgz,
            isNone_eq_false_of_truthy hgz, hrd, he, hs, hrl]
        · rw [Bool.not_eq_true] at hgz
          simp [prepare_record_for_insertion, hcr, hgz, hrd, he, hs, hrl]

/-- C6 counterexample: the claim reads "if release_date is already present
on the record it is left as-is" and "otherwise if existing_release_date is
non-null it is assigned".  `recEmptyRd` has `release_date` present but bound
to the empty string; with the non-null existing date `"E"` the code does not
leave the empty string as-is — it assigns `"E"`. -/
theorem prepare_release_date_cex :
    recEmptyRd.release_date = some (Val.vstr "")
      ∧ (prepare_record_for_insertion recEmptyRd "X" (Val.vstr "E")
          false).map (fun r => pyGet r.release_date) = some (Val.vstr "E")
      ∧ Val.vstr "E" ≠ Val.vstr "" := by
  refine ⟨by decide, by decide, by decide⟩

/-- C6 (amended) — release-date resolution order in the Preparer, with
presence read as Python truthiness: for every record passing the code check,
a present-and-truthy `release_date` is left as-is; otherwise a truthy
`existing_release_date` is assigned; otherwise a truthy `rel_date` is
promoted; otherwise the record is rejected.  In particular a record lacking
`release_date` but carrying `rel_date = "Jan 2025"` gets the stored
`"January 2025"` when one exists. -/
theorem prepare_release_date_resolution (r : Rec) (src : String) (e : Val)
    (g : Bool) (hcr : codeRejected r = false) :
    (truthy (pyGet r.release_date) = true →
      ∃ r', prepare_record_for_insertion r src e g = some r' ∧
        r'.release_date = r.release_date)
    ∧ (truthy (pyGet r.release_date) = false → truthy e = true →
      ∃ r', prepare_record_for_insertion r src e g = some r' ∧
        r'.release_date = some e)
    ∧ (truthy (pyGet r.release_date) = false → truthy e = false →
      truthy (pyGet r.rel_date) = true →
      ∃ r', prepare_record_for_insertion r src e g = some r' ∧
        r'.release_date = r.rel_date)
    ∧ (truthy (pyGet r.release_date) = false → truthy e = false →
      truthy (pyGet r.rel_date) = false →
      prepare_record_for_insertion r src e g = Option.none) := by
  refine ⟨?_, ?_, ?_, ?_⟩
  · intro hrd
    obtain ⟨r', h⟩ := prepare_isSome r src e g hcr (Or.inl hrd)
    refine ⟨r', h, ?_⟩
    rcases (prepare_cases r src e g r' h).2.2.2.2.2.2 with ⟨_, hv⟩ |
        ⟨hf, _⟩ | ⟨hf, _⟩
    · exact hv
    · exact absurd hrd (by simp [hf])
    · exact absurd hrd (by simp [hf])
  · intro hrd he
    obtain ⟨r', h⟩ := prepare_isSome r src e g hcr (Or.inr (Or.inl he))
    refine ⟨r', h, ?_⟩
    rcases (prepare_cases r src e g r' h).2.2.2.2.2.2 with ⟨ht, _⟩ |
        ⟨_, _, hv⟩ | ⟨_, hef, _⟩
    · exact absurd ht (by simp [hrd])
    · exact hv
    · exact absurd he (by simp [hef])
  · intro hrd he hrl
    obtain ⟨r', h⟩ := prepare_isSome r src e g hcr (Or.inr (Or.inr hrl))
    refine ⟨r', h, ?_⟩
    rcases (prepare_cases r src e g r' h).2.2.2.2.2.2 with ⟨ht, _⟩ |
        ⟨_, het, _⟩ | ⟨_, _, _, hv⟩
    · exact absurd ht (by simp [hrd])
    · exact absurd het (by simp [he])
    · exact hv
  · intro hrd he hrl
    exact prepare_skips r src e g hrd he hrl

/-- Witness for C6 (amended): the spec's scenario — the store already tracks
`"January 2025"`, the record carries only `rel_date = "Jan 2025"`, and the
Preparer assigns the stored `"January 2025"`. -/
theorem prepare_release_date_resolution_witness :
    codeRejected recRelOnly = false ∧
      (∃ r', prepare_record_for_insertion recRelOnly "X"
          (Val.vstr "January 2025") false = some r' ∧
        r'.release_date = some (Val.vstr "January 2025")) :=
  ⟨by decide,
    (prepare_release_date_resolution recRelOnly "X" (Val.vstr "January 2025")
      false (by decide)).2.1 (by decide) (by decide)⟩

/-- C5 counterexample: the claim reads "a record whose geozip is null never
matches, for dedup purposes, a batch record whose geozip is the empty
string".  In the intra-batch dedup the key coalesces falsy geozips to null,
so the null-geozip record and the empty-string-geozip record with the same
source, code and release date are merged: one output record and one
duplicate removed. -/
theorem dedup_null_geozip_cex :
    pyGet recNullGz.geozip = Val.none
      ∧ pyGet recEmptyGz.geozip = Val.vstr ""
      ∧ dedupRecords [recNullGz, recEmptyGz] = ([recEmptyGz], 1) := by
  refine ⟨by decide, by decide, by decide⟩

/-! ### Lookup and classification lemmas -/

lemma pyDictLookup_eq_none {κ ν : Type} [DecidableEq κ]
    (l : List (κ × ν)) (k : κ) (h : ∀ p ∈ l, p.1 ≠ k) :
    pyDictLookup l k = Option.none := by
  have aux : ∀ acc : Option ν,
      l.foldl (fun acc p => if p.1 = k then some p.2 else acc) acc = acc := by
    induction l with
    | nil => intro acc; rfl
    | cons p rest ih =>
      intro acc
      have hp : p.1 ≠ k := h p (List.mem_cons_self p rest)
      have := ih (fun q hq => h q (List.mem_cons_of_mem p hq))
      simp only [List.foldl_cons, if_neg hp]
      exact this acc
  exact aux Option.none

lemma pyDictLookup_mem_aux {κ ν : Type} [DecidableEq κ] (k : κ) (v : ν) :
    ∀ (l : List (κ × ν)) (acc : Option ν),
      l.foldl (fun acc p => if p.1 = k then some p.2 else acc) acc = some v →
      (k, v) ∈ l ∨ acc = some v := by
  intro l
  induction l with
  | nil => intro acc hacc; exact Or.inr hacc
  | cons p rest ih =>
    intro acc hacc
    simp only [List.foldl_cons] at hacc
    rcases ih _ hacc with hm | heq
    · exact Or.inl (List.mem_cons_of_mem p hm)
    · by_cases hp : p.1 = k
      · rw [if_pos hp] at heq
        simp only [Option.some.injEq] at heq
        left
        have hpkv : p = (k, v) := by
          obtain ⟨p1, p2⟩ := p
          simp_all
        rw [← hpkv]
        exact List.mem_cons_self p rest
      · rw [if_neg hp] at heq
        exact Or.inr heq

lemma pyDictLookup_mem {κ ν : Type} [DecidableEq κ]
    (l : List (κ × ν)) (k : κ) (v : ν) (h : pyDictLookup l k = some v) :
    (k, v) ∈ l := by
  rcases pyDictLookup_mem_aux k v l Option.none h with hm | habs
  · exact hm
  · exact absurd habs (by simp)

lemma classifyChunk_ins_of (ex : List ((Val × String × Val × Val) × Nat))
    (chunk : List Rec) (r : Rec) (hr : r ∈ chunk)
    (hl : pyDictLookup ex (normKey r) = Option.none) :
    r ∈ (classifyChunk ex chunk).1 := by
  induction chunk with
  | nil => cases hr
  | cons x rest ih =>
    rcases List.mem_cons.mp hr with rfl | hr'
    · simp only [classifyChunk, hl]
      exact List.mem_cons_self _ _
    · have hm := ih hr'
      simp only [classifyChunk]
      cases hx : pyDictLookup ex (normKey x) with
      | none => simpa using Or.inr hm
      | some id => simpa using hm

lemma classifyChunk_upd_mem (ex : List ((Val × String × Val × Val) × Nat))
    (chunk : List Rec) :
    ∀ e ∈ (classifyChunk ex chunk).2,
      e.2 ∈ chunk ∧ pyDictLookup ex (normKey e.2) = some e.1 := by
  induction chunk with
  | nil => intro e he; cases he
  | cons x rest ih =>
    intro e he
    simp only [classifyChunk] at he
    cases hx : pyDictLookup ex (normKey x) with
    | none =>
      rw [hx] at he
      simp only at he
      obtain ⟨h1, h2⟩ := ih e he
      exact ⟨List.mem_cons_of_mem x h1, h2⟩
    | some id =>
      rw [hx] at he
      simp only [List.mem_cons] at he
      rcases he with rfl | he'
      · exact ⟨List.mem_cons_self x rest, hx⟩
      · obtain ⟨h1, h2⟩ := ih e he'
        exact ⟨List.mem_cons_of_mem x h1, h2⟩

lemma classifyChunk_ins_mem (ex : List ((Val × String × Val × Val) × Nat))
    (chunk : List Rec) :
    ∀ r ∈ (classifyChunk ex chunk).1,
      r ∈ chunk ∧ pyDictLookup ex (normKey r) = Option.none := by
  induction chunk with
  | nil => intro r hr; cases hr
  | cons x rest ih =>
    intro r hr
    simp only [classifyChunk] at hr
    cases hx : pyDictLookup ex (normKey x) with
    | none =>
      rw [hx] at hr
      simp only [List.mem_cons] at hr
      rcases hr with rfl | hr'
      · exact ⟨List.mem_cons_self r rest, hx⟩
      · obtain ⟨h1, h2⟩ := ih r hr'
        exact ⟨List.mem_cons_of_mem x h1, h2⟩
    | some id =>
      rw [hx] at hr
      simp only at hr
      obtain ⟨h1, h2⟩ := ih r hr
      exact ⟨List.mem_cons_of_mem x h1, h2⟩

lemma classifyChunk_length (ex : List ((Val × String × Val × Val) × Nat))
    (chunk : List Rec) :
    (classifyChunk ex chunk).1.length + (classifyChunk ex chunk).2.length
      = chunk.length := by
  induction chunk with
  | nil => rfl
  | cons x rest ih =>
    simp only [classifyChunk]
    cases hx : pyDictLookup ex (normKey x) with
    | none => simp only [List.length_cons]; omega
    | some id => simp only [List.length_cons]; omega

/-- Every entry of the in-memory `existing_records` dictionary comes from a
stored row matching the chunk's source, first release date and code set, and
its key is that row's normalized key. -/
lemma existingMap_mem (st : Store) (src : String) (chunk : List Rec)
    (p : (Val × String × Val × Val) × Nat)
    (hp : p ∈ existingMap memDb st src chunk) :
    ∃ w, (p.2, w) ∈ st.rows ∧ normKey w = p.1 ∧
      pyGet w.source = Val.vstr src ∧
      pyGet w.release_date = chunkRd chunk ∧
      pyGet w.code ∈ chunkCodes chunk := by
  simp only [existingMap] at hp
  split at hp
  · simp only [memDb, memSelect] at hp
    simp only [List.mem_map] at hp
    obtain ⟨q, hq, rfl⟩ := hp
    rw [List.mem_filter] at hq
    obtain ⟨hmem, hcond⟩ := hq
    simp only [Bool.and_eq_true, decide_eq_true_eq] at hcond
    exact ⟨q.2, hmem, rfl, hcond.1.1, hcond.1.2, hcond.2⟩
  · cases hp

/-- C10 — per-chunk existence check keys off the first record's release_date
only: a chunk record whose `release_date` differs from the first record's can
never match an entry of the existence lookup and is always classified for
insert, whatever the store holds (in particular even when a stored row with
its exact composite key exists). -/
theorem chunk_release_date_blindspot (st : Store) (src : String) (c0 : Rec)
    (rest : List Rec) (r : Rec) (hmem : r ∈ c0 :: rest)
    (hrd : pyGet r.release_date ≠ pyGet c0.release_date) :
    r ∈ (classifyChunk (existingMap memDb st src (c0 :: rest)) (c0 :: rest)).1 := by
  apply classifyChunk_ins_of _ _ _ hmem
  apply pyDictLookup_eq_none
  intro p hp hk
  obtain ⟨w, _, hnk, _, hwrd, _⟩ := existingMap_mem st src (c0 :: rest) p hp
  rw [hk] at hnk
  have h3 : pyGet w.release_date = pyGet r.release_date := by
    have := congrArg (fun t => t.2.2.1) hnk
    simpa [normKey] using this
  rw [h3] at hwrd
  exact hrd hwrd

/-- Witness for C10: the store holds a row whose composite key is exactly
`recNullGz`'s, but chunked behind `mkRec 7 "D0"` (a different first
release date) `recNullGz` is still classified for insert. -/
theorem chunk_release_date_blindspot_witness :
    recNullGz ∈ [mkRec 7 "D0", recNullGz]
      ∧ pyGet recNullGz.release_date ≠ pyGet (mkRec 7 "D0").release_date
      ∧ (0, recNullGz) ∈ storeOneNull.rows
      ∧ recNullGz ∈ (classifyChunk
          (existingMap memDb storeOneNull "S" [mkRec 7 "D0", recNullGz])
          [mkRec 7 "D0", recNullGz]).1 :=
  ⟨by decide, by decide, by decide,
    chunk_release_date_blindspot storeOneNull "S" (mkRec 7 "D0") [recNullGz]
      recNullGz (by decide) (by decide)⟩

/-- C5 (amended) — null-geozip isolation, with the dedup side weakened to
what the code's falsy-coalescing gives: for the existence check a null-geozip
record matches only stored rows whose geozip is null; in the intra-batch
dedup a null-geozip record never shares a key with a record whose geozip is
truthy (non-empty, non-null), but it does share one with any falsy geozip
(null or empty string), since the dedup key coalesces falsy geozips to null;
null is never coalesced to the empty string. -/
theorem null_geozip_isolation_amended :
    (∀ r r' : Rec, pyGet r.geozip = Val.none → dedupKey r = dedupKey r' →
      truthy (pyGet r'.geozip) = false)
    ∧ (∀ (st : Store) (src : String) (chunk : List Rec) (r : Rec) (id : Nat),
        pyGet r.geozip = Val.none →
        pyDictLookup (existingMap memDb st src chunk) (normKey r) = some id →
        ∃ w, (id, w) ∈ st.rows ∧ pyGet w.geozip = Val.none) := by
  constructor
  · intro r r' hnull hkey
    by_contra htr
    rw [Bool.not_eq_false] at htr
    have h4 := congrArg (fun t => t.2.2.2) hkey
    simp only [dedupKey, hnull] at h4
    rw [if_pos htr, ite_self] at h4
    rw [← h4] at htr
    exact absurd htr (by simp [truthy])
  · intro st src chunk r id hnull hl
    obtain ⟨w, hw, hnk, _, _, _⟩ :=
      existingMap_mem st src chunk (normKey r, id) (pyDictLookup_mem _ _ _ hl)
    refine ⟨w, hw, ?_⟩
    have := congrArg (fun t => t.2.2.2) hnk
    simpa [normKey, hnull] using this

/-- Witness for C5 (amended): a store whose single row has a null geozip; the
null-geozip record `recNullGz` matches it in the existence lookup, and the
matched row indeed has a null geozip. -/
theorem null_geozip_isolation_amended_witness :
    pyGet recNullGz.geozip = Val.none
      ∧ pyDictLookup (existingMap memDb storeOneNull "S" [recNullGz])
          (normKey recNullGz) = some 0
      ∧ ∃ w, (0, w) ∈ storeOneNull.rows ∧ pyGet w.geozip = Val.none :=
  ⟨by decide, by decide,
    null_geozip_isolation_amended.2 storeOneNull "S" [recNullGz] recNullGz 0
      (by decide) (by decide)⟩

/-! ### Deduplication lemmas -/

lemma enumFrom_concat {α : Type} (x : α) :
    ∀ (xs : List α) (n : Nat),
      List.enumFrom n (xs ++ [x]) = List.enumFrom n xs ++ [(n + xs.length, x)] := by
  intro xs
  induction xs with
  | nil => intro n; simp [List.enumFrom]
  | cons y ys ih =>
    intro n
    have hn : n + 1 + ys.length = n + (ys.length + 1) := by omega
    simp only [List.cons_append, List.enumFrom, List.length_cons,
      List.append_eq, ih (n + 1), hn]

lemma revEnum_concat {α : Type} (ks : List α) (k : α) :
    revEnum (ks ++ [k]) = (k, ks.length) :: revEnum ks := by
  simp only [revEnum, List.enum, enumFrom_concat, List.map_append,
    List.reverse_append, Nat.zero_add]
  rfl

lemma revEnum_mem {α : Type} (ks : List α) :
    ∀ p ∈ revEnum ks, ∃ h : p.2 < ks.length, ks.get ⟨p.2, h⟩ = p.1 := by
  induction ks using List.reverseRecOn with
  | nil => intro p hp; cases hp
  | append_singleton ks k ih =>
    intro p hp
    rw [revEnum_concat] at hp
    rcases List.mem_cons.mp hp with rfl | hp'
    · refine ⟨by simp, ?_⟩
      simp
    · obtain ⟨h, hget⟩ := ih p hp'
      refine ⟨by simp; omega, ?_⟩
      rw [List.get_append _ h]
      exact hget

lemma revEnum_mem_of_lt {α : Type} (ks : List α) (i : Nat) (h : i < ks.length) :
    (ks.get ⟨i, h⟩, i) ∈ revEnum ks := by
  induction ks using List.reverseRecOn with
  | nil => cases h
  | append_singleton ks k ih =>
    rw [revEnum_concat]
    rcases Nat.lt_or_ge i ks.length with hi | hi
    · have hg : (ks ++ [k]).get ⟨i, h⟩ = ks.get ⟨i, hi⟩ := List.get_append _ hi
      rw [hg]
      exact List.mem_cons_of_mem _ (ih hi)
    · have hik : i = ks.length := by
        simp only [List.length_append, List.length_singleton] at h
        omega
      subst hik
      have hg : (ks ++ [k]).get ⟨ks.length, h⟩ = k := by simp
      rw [hg]
      exact List.mem_cons_self _ _

lemma firstSeen_mem {α : Type} [DecidableEq α] (l : List α) (a : α) :
    a ∈ firstSeen l ↔ a ∈ l := by
  induction l using firstSeen.induct with
  | case1 => simp [firstSeen]
  | case2 x rest ih =>
    rw [firstSeen]
    by_cases hax : a = x
    · subst hax
      simp
    · simp only [List.mem_cons, hax, false_or]
      rw [ih]
      simp [List.mem_filter, hax]

lemma firstSeen_concat_mem {α : Type} [DecidableEq α] (l : List α) (a : α)
    (h : a ∈ l) : firstSeen (l ++ [a]) = firstSeen l := by
  induction l using firstSeen.induct with
  | case1 => cases h
  | case2 x rest ih =>
    by_cases hax : a = x
    · subst hax
      simp only [List.cons_append, firstSeen, List.filter_append]
      have : [a].filter (fun b => decide (b ≠ a)) = [] := by simp
      rw [this, List.append_nil]
    · have ha' : a ∈ rest := by
        rcases List.mem_cons.mp h with h1 | h2
        · exact absurd h1 hax
        · exact h2
      have haf : a ∈ rest.filter (· ≠ x) := by
        rw [List.mem_filter]
        exact ⟨ha', by simpa using hax⟩
      simp only [List.cons_append, firstSeen, List.filter_append]
      have : [a].filter (fun b => decide (b ≠ x)) = [a] := by simp [hax]
      rw [this]
      rw [ih haf]

lemma firstSeen_concat_new {α : Type} [DecidableEq α] (l : List α) (a : α)
    (h : a ∉ l) : firstSeen (l ++ [a]) = firstSeen l ++ [a] := by
  induction l using firstSeen.induct with
  | case1 => simp [firstSeen]
  | case2 x rest ih =>
    have hax : a ≠ x := by
      intro hc; exact h (hc ▸ List.mem_cons_self x rest)
    have ha' : a ∉ rest.filter (· ≠ x) := by
      intro hc
      exact h (List.mem_cons_of_mem x (List.mem_filter.mp hc).1)
    simp only [List.cons_append, firstSeen, List.filter_append]
    have : [a].filter (fun b => decide (b ≠ x)) = [a] := by simp [hax]
    rw [this, ih ha']

lemma set_get_self {α : Type} (l : List α) (i : Nat) (a : α)
    (h : i < l.length) (hv : l.get ⟨i, h⟩ = a) : l.set i a = l := by
  apply List.ext_get
  · simp
  · intro j h1 h2
    rw [List.get_eq_getElem, List.get_eq_getElem, List.getElem_set]
    split
    · next heq =>
      subst heq
      rw [← hv, List.get_eq_getElem]
    · rfl

lemma getLast?_snoc {α : Type} (l : List α) (a : α) :
    (l ++ [a]).getLast? = some a := by
  rw [List.getLast?_append_cons]
  rfl

lemma filter_singleton_none {α : Type} (p : α → Bool) (a : α)
    (h : p a = false) : [a].filter p = [] := by
  simp [List.filter_cons, h]

lemma dedupGo_append (xs ys : List Rec) :
    ∀ (seen : List ((Val × Val × Val × Val) × Nat)) (out : List Rec)
      (dups : Nat),
      dedupGo seen out dups (xs ++ ys) =
        dedupGo (dedupGo seen out dups xs).2.1 (dedupGo seen out dups xs).1
          (dedupGo seen out dups xs).2.2 ys := by
  induction xs with
  | nil => intro seen out dups; rfl
  | cons r rest ih =>
    intro seen out dups
    simp only [List.cons_append, dedupGo]
    cases hf : seen.find? (fun p => decide (p.1 = dedupKey r)) with
    | some p => exact ih _ _ _
    | none => exact ih _ _ _

/-- The running invariants of the dedup loop, proved over the whole input by
snoc induction: the `seen_keys` dictionary is the key/index view of the
output, output keys are distinct and in first-seen order, each output slot
holds the last input record with its key, and the duplicate counter
complements the output length. -/
lemma dedupGo_invariants (l : List Rec) :
    (dedupGo [] [] 0 l).2.1 = revEnum ((dedupGo [] [] 0 l).1.map dedupKey)
    ∧ ((dedupGo [] [] 0 l).1.map dedupKey).Nodup
    ∧ (dedupGo [] [] 0 l).1.map dedupKey = firstSeen (l.map dedupKey)
    ∧ (∀ j (hj : j < (dedupGo [] [] 0 l).1.length),
        (l.filter (fun x => decide (dedupKey x =
          dedupKey ((dedupGo [] [] 0 l).1.get ⟨j, hj⟩)))).getLast?
          = some ((dedupGo [] [] 0 l).1.get ⟨j, hj⟩))
    ∧ (dedupGo [] [] 0 l).2.2 + (dedupGo [] [] 0 l).1.length = l.length := by
  induction l using List.reverseRecOn with
  | nil =>
    refine ⟨rfl, by simp [dedupGo], by simp [dedupGo, firstSeen], ?_, rfl⟩
    intro j hj
    simp [dedupGo] at hj
  | append_singleton l r ih =>
    rw [dedupGo_append l [r]]
    obtain ⟨hseen, hnd, hfs, hlast, hcount⟩ := ih
    cases hf : (dedupGo [] [] 0 l).2.1.find?
        (fun p => decide (p.1 = dedupKey r)) with
    | some p =>
      have hpk : p.1 = dedupKey r := by
        have := List.find?_some hf
        simpa using this
      have hpm : p ∈ revEnum ((dedupGo [] [] 0 l).1.map dedupKey) :=
        hseen ▸ List.mem_of_find?_eq_some hf
      obtain ⟨hplt, hpget⟩ := revEnum_mem _ p hpm
      have hplt' : p.2 < (dedupGo [] [] 0 l).1.length := by
        simpa using hplt
      have hkey : dedupKey ((dedupGo [] [] 0 l).1.get ⟨p.2, hplt'⟩)
          = dedupKey r := by
        rw [← hpk, ← hpget]
        simp [List.get_eq_getElem]
      have hmapset : ((dedupGo [] [] 0 l).1.set p.2 r).map dedupKey
          = (dedupGo [] [] 0 l).1.map dedupKey := by
        rw [List.map_set]
        apply set_get_self _ _ _ hplt
        rw [← hpk]
        exact hpget
      have hkmem : dedupKey r ∈ l.map dedupKey := by
        rw [← firstSeen_mem, ← hfs, ← hpk, ← hpget]
        exact List.get_mem _ _ _
      have hstep : dedupGo (dedupGo [] [] 0 l).2.1 (dedupGo [] [] 0 l).1
          (dedupGo [] [] 0 l).2.2 [r]
          = ((dedupGo [] [] 0 l).1.set p.2 r, (dedupGo [] [] 0 l).2.1,
            (dedupGo [] [] 0 l).2.2 + 1) := by
        simp only [dedupGo, hf]
      rw [hstep]
      refine ⟨?_, ?_, ?_, ?_, ?_⟩
      · rw [hmapset, ← hseen]
      · rw [hmapset]; exact hnd
      · simp only [List.map_append, List.map_singleton]
        rw [hmapset, hfs, firstSeen_concat_mem _ _ hkmem]
      · intro j hj
        have hj' : j < (dedupGo [] [] 0 l).1.length := by simpa using hj
        by_cases hjp : j = p.2
        · have hget : ((dedupGo [] [] 0 l).1.set p.2 r).get ⟨j, hj⟩ = r := by
            rw [List.get_eq_getElem, List.getElem_set, if_pos hjp.symm]
          rw [hget, List.filter_append]
          have hfr : [r].filter (fun x => decide (dedupKey x = dedupKey r))
              = [r] := by simp
          rw [hfr]
          exact getLast?_snoc _ r
        · have hget : ((dedupGo [] [] 0 l).1.set p.2 r).get ⟨j, hj⟩
              = (dedupGo [] [] 0 l).1.get ⟨j, hj'⟩ := by
            rw [List.get_eq_getElem, List.get_eq_getElem, List.getElem_set,
              if_neg (fun hc => hjp hc.symm)]
          rw [hget, List.filter_append]
          have hne : dedupKey ((dedupGo [] [] 0 l).1.get ⟨j, hj'⟩)
              ≠ dedupKey r := by
            rw [← hkey]
            intro hc
            apply hjp
            have hg2 : ((dedupGo [] [] 0 l).1.map dedupKey).get
                ⟨j, by simpa using hj'⟩
                = ((dedupGo [] [] 0 l).1.map dedupKey).get ⟨p.2, hplt⟩ := by
              simp only [List.get_eq_getElem, List.getElem_map]
              simp only [List.get_eq_getElem] at hc
              exact hc
            have h3 := (List.Nodup.get_inj_iff hnd).mp hg2
            simpa using h3
          have hpred : (decide (dedupKey r =
              dedupKey ((dedupGo [] [] 0 l).1.get ⟨j, hj'⟩))) = false :=
            decide_eq_false (fun hc => hne hc.symm)
          have hfr : [r].filter (fun x => decide (dedupKey x =
              dedupKey ((dedupGo [] [] 0 l).1.get ⟨j, hj'⟩))) = [] :=
            filter_singleton_none _ r hpred
          rw [hfr, List.append_nil]
          exact hlast j hj'
      · simp only [List.length_set, List.length_append, List.length_singleton]
        omega
    | none =>
      have hknot : dedupKey r ∉ (dedupGo [] [] 0 l).1.map dedupKey := by
        intro hc
        obtain ⟨⟨i, hi⟩, hgi⟩ := List.mem_iff_get.mp hc
        have hmem := revEnum_mem_of_lt _ i hi
        rw [hgi, ← hseen] at hmem
        have := List.find?_eq_none.mp hf _ hmem
        simp at this
      have hnotin : dedupKey r ∉ l.map dedupKey := by
        rw [← firstSeen_mem, ← hfs]
        exact hknot
      have hstep : dedupGo (dedupGo [] [] 0 l).2.1 (dedupGo [] [] 0 l).1
          (dedupGo [] [] 0 l).2.2 [r]
          = ((dedupGo [] [] 0 l).1 ++ [r],
            (dedupKey r, (dedupGo [] [] 0 l).1.length) :: (dedupGo [] [] 0 l).2.1,
            (dedupGo [] [] 0 l).2.2) := by
        simp only [dedupGo, hf]
      rw [hstep]
      refine ⟨?_, ?_, ?_, ?_, ?_⟩
      · rw [List.map_append, List.map_singleton, revEnum_concat, hseen,
          List.length_map]
      · rw [List.map_append, List.map_singleton]
        rw [List.nodup_append]
        refine ⟨hnd, List.nodup_singleton _, ?_⟩
        intro a ha hb
        simp only [List.mem_singleton] at hb
        subst hb
        exact hknot ha
      · simp only [List.map_append, List.map_singleton]
        rw [firstSeen_concat_new _ _ hnotin, hfs]
      · intro j hj
        have hj2 : j < (dedupGo [] [] 0 l).1.length + 1 := by simpa using hj
        by_cases hjl : j < (dedupGo [] [] 0 l).1.length
        · have hget : ((dedupGo [] [] 0 l).1 ++ [r]).get ⟨j, hj⟩
              = (dedupGo [] [] 0 l).1.get ⟨j, hjl⟩ := List.get_append _ hjl
          rw [hget, List.filter_append]
          have hne : dedupKey ((dedupGo [] [] 0 l).1.get ⟨j, hjl⟩)
              ≠ dedupKey r := by
            intro hc
            apply hknot
            rw [← hc]
            exact List.mem_map_of_mem dedupKey (List.get_mem _ _ _)
          have hpred : (decide (dedupKey r =
              dedupKey ((dedupGo [] [] 0 l).1.get ⟨j, hjl⟩))) = false :=
            decide_eq_false (fun hc => hne hc.symm)
          have hfr : [r].filter (fun x => decide (dedupKey x =
              dedupKey ((dedupGo [] [] 0 l).1.get ⟨j, hjl⟩))) = [] :=
            filter_singleton_none _ r hpred
          rw [hfr, List.append_nil]
          exact hlast j hjl
        · have hget : ((dedupGo [] [] 0 l).1 ++ [r]).get ⟨j, hj⟩ = r := by
            rw [List.get_eq_getElem]
            have hjeq : j = (dedupGo [] [] 0 l).1.length := by omega
            subst hjeq
            simp
          rw [hget, List.filter_append]
          have hfr : [r].filter (fun x => decide (dedupKey x = dedupKey r))
              = [r] := by simp
          rw [hfr]
          exact getLast?_snoc _ r
      · simp only [List.length_append, List.length_singleton]
        omega

/-- On a record of the shape the Preparer emits, the dedup key coincides with
the raw composite key `(source, code, release_date, geozip)`. -/
lemma dedupKey_eq_dbKey (r : Rec) (h : PreparedShape r) :
    dedupKey r = dbKey r := by
  obtain ⟨hrd, hgz⟩ := h
  rcases hgz with hz | ht
  · have hz' : truthy (pyGet r.geozip) = false := by rw [hz]; rfl
    simp [dedupKey, dbKey, hrd, hz', hz]
  · simp [dedupKey, dbKey, hrd, ht]

/-- C2 — dedup correctness: on a batch of prepared records the dedup step
emits the distinct `(source, code, release_date, geozip)` keys exactly once
each, in first-seen order; each emitted record is the last input record
sharing its key; and the duplicates-removed counter complements the output
length to the input length. -/
theorem dedup_correctness (l : List Rec) (hp : ∀ r ∈ l, PreparedShape r) :
    (dedupRecords l).1.map dbKey = firstSeen (l.map dbKey)
    ∧ ((dedupRecords l).1.map dbKey).Nodup
    ∧ (∀ j (hj : j < (dedupRecords l).1.length),
        (l.filter (fun x => decide (dbKey x =
          dbKey ((dedupRecords l).1.get ⟨j, hj⟩)))).getLast?
          = some ((dedupRecords l).1.get ⟨j, hj⟩))
    ∧ (dedupRecords l).2 + (dedupRecords l).1.length = l.length := by
  obtain ⟨hseen, hnd, hfs, hlast, hcount⟩ := dedupGo_invariants l
  have houtl : (dedupRecords l).1 = (dedupGo [] [] 0 l).1 := rfl
  have houtd : (dedupRecords l).2 = (dedupGo [] [] 0 l).2.2 := rfl
  have hsub : ∀ r ∈ (dedupGo [] [] 0 l).1, r ∈ l := by
    intro r hr
    obtain ⟨⟨j, hj⟩, hg⟩ := List.mem_iff_get.mp hr
    have := hlast j hj
    rw [hg] at this
    have hmem : r ∈ l.filter (fun x => decide (dedupKey x = dedupKey r)) := by
      have hx := List.mem_of_mem_getLast? (l := l.filter
        (fun x => decide (dedupKey x = dedupKey r))) (by rw [this]; rfl)
      exact hx
    exact List.mem_of_mem_filter hmem
  have hmapout : (dedupGo [] [] 0 l).1.map dbKey
      = (dedupGo [] [] 0 l).1.map dedupKey := by
    apply List.map_congr_left
    intro r hr
    exact (dedupKey_eq_dbKey r (hp r (hsub r hr))).symm
  have hmapl : l.map dbKey = l.map dedupKey := by
    apply List.map_congr_left
    intro r hr
    exact (dedupKey_eq_dbKey r (hp r hr)).symm
  refine ⟨?_, ?_, ?_, ?_⟩
  · rw [houtl, hmapout, hmapl, hfs]
  · rw [houtl, hmapout]; exact hnd
  · intro j hj
    show (l.filter (fun x => decide (dbKey x =
      dbKey ((dedupGo [] [] 0 l).1.get ⟨j, hj⟩)))).getLast?
      = some ((dedupGo [] [] 0 l).1.get ⟨j, hj⟩)
    have ht : (dedupGo [] [] 0 l).1.get ⟨j, hj⟩ ∈ l :=
      hsub _ (List.get_mem _ _ _)
    have hfilter : l.filter (fun x => decide (dbKey x =
        dbKey ((dedupGo [] [] 0 l).1.get ⟨j, hj⟩)))
        = l.filter (fun x => decide (dedupKey x =
          dedupKey ((dedupGo [] [] 0 l).1.get ⟨j, hj⟩))) := by
      apply List.filter_congr
      intro x hx
      rw [dedupKey_eq_dbKey x (hp x hx),
        dedupKey_eq_dbKey _ (hp _ ht)]
    rw [hfilter]
    exact hlast j hj
  · rw [houtl, houtd]
    exact hcount

/-- Witness for C2: a three-record prepared batch whose third record repeats
the first key — one duplicate removed, two records out, keys in first-seen
order, last occurrence kept. -/
theorem dedup_correctness_witness :
    (∀ r ∈ recsDup, PreparedShape r)
      ∧ ((dedupRecords recsDup).1.map dbKey = firstSeen (recsDup.map dbKey)
        ∧ ((dedupRecords recsDup).1.map dbKey).Nodup
        ∧ (∀ j (hj : j < (dedupRecords recsDup).1.length),
            (recsDup.filter (fun x => decide (dbKey x =
              dbKey ((dedupRecords recsDup).1.get ⟨j, hj⟩)))).getLast?
              = some ((dedupRecords recsDup).1.get ⟨j, hj⟩))
        ∧ (dedupRecords recsDup).2 + (dedupRecords recsDup).1.length
            = recsDup.length) :=
  ⟨by decide, dedup_correctness recsDup (by decide)⟩

/-! ### Chunk loop lemmas -/

lemma chunkTrace_map_fst {σ : Type} (proc : ChunkProc σ) :
    ∀ (chunks : List (List Rec)) (st : σ),
      (chunkTrace proc st chunks).map Prod.fst = chunks := by
  intro chunks
  induction chunks with
  | nil => intro st; rfl
  | cons c rest ih =>
    intro st
    simp only [chunkTrace, List.map_cons]
    rw [ih]

lemma mem_enumFrom_of_mem {α : Type} (a : α) :
    ∀ (l : List α) (n : Nat), a ∈ l → ∃ k, (k, a) ∈ List.enumFrom n l := by
  intro l
  induction l with
  | nil => intro n h; cases h
  | cons x rest ih =>
    intro n h
    rcases List.mem_cons.mp h with rfl | h'
    · exact ⟨n, List.mem_cons_self _ _⟩
    · obtain ⟨k, hk⟩ := ih (n + 1) h'
      exact ⟨k, List.mem_cons_of_mem _ hk⟩

/-- The guarded chunk loop, characterized against its own trace: inserted and
updated counts sum the successful chunks' counts, the failure tally sums the
failed chunks' record counts, and `failed_chunks` lists the 1-based numbers
of the failed chunks in order. -/
lemma chunkLoop_trace {σ : Type} (proc : ChunkProc σ) :
    ∀ (chunks : List (List Rec)) (st : σ) (num : Nat),
      (chunkLoop proc st chunks num).1
        = ((chunkTrace proc st chunks).map (fun e => match e.2 with
            | .ok r => r.1 | .error _ => 0)).sum
      ∧ (chunkLoop proc st chunks num).2.1
        = ((chunkTrace proc st chunks).map (fun e => match e.2 with
            | .ok r => r.2 | .error _ => 0)).sum
      ∧ (chunkLoop proc st chunks num).2.2.1
        = ((chunkTrace proc st chunks).map (fun e => match e.2 with
            | .ok _ => 0 | .error _ => e.1.length)).sum
      ∧ (chunkLoop proc st chunks num).2.2.2.1
        = ((chunkTrace proc st chunks).enumFrom num).filterMap
            (fun q => match q.2.2 with
              | .ok _ => Option.none | .error _ => some q.1) := by
  intro chunks
  induction chunks with
  | nil => intro st num; exact ⟨rfl, rfl, rfl, rfl⟩
  | cons c rest ih =>
    intro st num
    obtain ⟨ih1, ih2, ih3, ih4⟩ := ih (proc st c).2 (num + 1)
    cases hp : proc st c with
    | mk res st' =>
      rw [hp] at ih1 ih2 ih3 ih4
      cases res with
      | ok r =>
        have hloop : chunkLoop proc st (c :: rest) num
            = (r.1 + (chunkLoop proc st' rest (num + 1)).1,
              r.2 + (chunkLoop proc st' rest (num + 1)).2.1,
              (chunkLoop proc st' rest (num + 1)).2.2.1,
              (chunkLoop proc st' rest (num + 1)).2.2.2.1,
              (chunkLoop proc st' rest (num + 1)).2.2.2.2) := by
          simp only [chunkLoop, hp]
        have htr : chunkTrace proc st (c :: rest)
            = (c, Except.ok r) :: chunkTrace proc st' rest := by
          simp only [chunkTrace, hp]
        rw [hloop, htr]
        refine ⟨?_, ?_, ?_, ?_⟩
        · simp only [List.map_cons, List.sum_cons, ih1]
        · simp only [List.map_cons, List.sum_cons, ih2]
        · simp only [List.map_cons, List.sum_cons, ih3]
          omega
        · simp only [List.enumFrom, List.filterMap_cons, ih4]
      | error e =>
        have hloop : chunkLoop proc st (c :: rest) num
            = ((chunkLoop proc st' rest (num + 1)).1,
              (chunkLoop proc st' rest (num + 1)).2.1,
              (chunkLoop proc st' rest (num + 1)).2.2.1 + c.length,
              num :: (chunkLoop proc st' rest (num + 1)).2.2.2.1,
              (chunkLoop proc st' rest (num + 1)).2.2.2.2) := by
          simp only [chunkLoop, hp]
        have htr : chunkTrace proc st (c :: rest)
            = (c, Except.error e) :: chunkTrace proc st' rest := by
          simp only [chunkTrace, hp]
        rw [hloop, htr]
        refine ⟨?_, ?_, ?_, ?_⟩
        · simp only [List.map_cons, List.sum_cons, ih1]
          omega
        · simp only [List.map_cons, List.sum_cons, ih2]
          omega
        · simp only [List.map_cons, List.sum_cons, ih3]
          omega
        · simp only [List.enumFrom, List.filterMap_cons, ih4]

/-- C4 — partial failure containment: for every chunk processor and every
chunk sequence, a chunk whose processing raises contributes its full record
count to the failure tally and its 1-based chunk number to `failed_chunks`,
while the loop continues and the successful chunks' inserted/updated counts
are still summed into the result; the final status is `"success"` exactly
when no chunk failed, else `"partial_success"`. -/
theorem chunk_failure_containment {σ : Type} (proc : ChunkProc σ) (st : σ)
    (chunks : List (List Rec)) (hne : ∀ c ∈ chunks, c ≠ []) :
    (chunkLoop proc st chunks 1).1
      = ((chunkTrace proc st chunks).map (fun e => match e.2 with
          | .ok r => r.1 | .error _ => 0)).sum
    ∧ (chunkLoop proc st chunks 1).2.1
      = ((chunkTrace proc st chunks).map (fun e => match e.2 with
          | .ok r => r.2 | .error _ => 0)).sum
    ∧ (chunkLoop proc st chunks 1).2.2.1
      = ((chunkTrace proc st chunks).map (fun e => match e.2 with
          | .ok _ => 0 | .error _ => e.1.length)).sum
    ∧ (chunkLoop proc st chunks 1).2.2.2.1
      = ((chunkTrace proc st chunks).enumFrom 1).filterMap
          (fun q => match q.2.2 with
            | .ok _ => Option.none | .error _ => some q.1)
    ∧ (statusOf (chunkLoop proc st chunks 1).2.2.1 = "success"
        ↔ (chunkLoop proc st chunks 1).2.2.2.1 = []) := by
  obtain ⟨h1, h2, h3, h4⟩ := chunkLoop_trace proc chunks st 1
  refine ⟨h1, h2, h3, h4, ?_⟩
  rw [h3, h4]
  have hzero : ((chunkTrace proc st chunks).map (fun e => match e.2 with
      | .ok _ => 0 | .error _ => e.1.length)).sum = 0
      ↔ ∀ e ∈ chunkTrace proc st chunks,
        (match e.2 with | .ok _ => 0 | .error _ => e.1.length) = 0 := by
    rw [List.sum_eq_zero_iff]
    constructor
    · intro h e he
      exact h _ (List.mem_map_of_mem _ he)
    · intro h x hx
      obtain ⟨e, he, rfl⟩ := List.mem_map.mp hx
      exact h e he
  constructor
  · intro hs
    by_cases h0 : ((chunkTrace proc st chunks).map (fun e => match e.2 with
        | .ok _ => 0 | .error _ => e.1.length)).sum = 0
    · rw [List.filterMap_eq_nil]
      intro q hq
      cases hq2 : q.2.2 with
      | ok r => rfl
      | error err =>
        exfalso
        have hqm : q.2 ∈ chunkTrace proc st chunks := by
          have := List.enumFrom_map_snd 1 (chunkTrace proc st chunks)
          rw [← this]
          exact List.mem_map_of_mem _ hq
        have hc := hzero.mp h0 q.2 hqm
        simp only [hq2] at hc
        have hfst : q.2.1 ∈ chunks := by
          rw [← chunkTrace_map_fst proc chunks st]
          exact List.mem_map_of_mem _ hqm
        have := hne _ hfst
        rw [← List.length_pos] at this
        omega
    · exfalso
      rw [statusOf, if_neg h0] at hs
      exact absurd hs (by decide)
  · intro hfc
    have h0 : ((chunkTrace proc st chunks).map (fun e => match e.2 with
        | .ok _ => 0 | .error _ => e.1.length)).sum = 0 := by
      rw [hzero]
      intro e he
      cases he2 : e.2 with
      | ok r => rfl
      | error err =>
        exfalso
        obtain ⟨k, hk⟩ := mem_enumFrom_of_mem e (chunkTrace proc st chunks) 1 he
        have := List.filterMap_eq_nil.mp hfc _ hk
        simp only [he2] at this
        exact Option.noConfusion this
    rw [statusOf, if_pos h0]

/-- Witness for C4: `badProc` fails exactly the two-record middle chunk of
`chunks3`; the loop reports 2 inserted from chunks 1 and 3, failure tally 2,
failed chunk list `[2]`, and status `"partial_success"`. -/
theorem chunk_failure_containment_witness :
    (∀ c ∈ chunks3, c ≠ [])
      ∧ ((chunkLoop badProc () chunks3 1).1
          = ((chunkTrace badProc () chunks3).map (fun e => match e.2 with
              | .ok r => r.1 | .error _ => 0)).sum
        ∧ (chunkLoop badProc () chunks3 1).2.1
          = ((chunkTrace badProc () chunks3).map (fun e => match e.2 with
              | .ok r => r.2 | .error _ => 0)).sum
        ∧ (chunkLoop badProc () chunks3 1).2.2.1
          = ((chunkTrace badProc () chunks3).map (fun e => match e.2 with
              | .ok _ => 0 | .error _ => e.1.length)).sum
        ∧ (chunkLoop badProc () chunks3 1).2.2.2.1
          = ((chunkTrace badProc () chunks3).enumFrom 1).filterMap
              (fun q => match q.2.2 with
                | .ok _ => Option.none | .error _ => some q.1)
        ∧ (statusOf (chunkLoop badProc () chunks3 1).2.2.1 = "success"
            ↔ (chunkLoop badProc () chunks3 1).2.2.2.1 = [])) :=
  ⟨by decide, chunk_failure_containment badProc () chunks3 (by decide)⟩

/-! ### Fallback insert lemmas -/

lemma fallbackOutcomes_length {σ : Type} (db : Db σ) :
    ∀ (rs : List Rec) (st : σ),
      (fallbackOutcomes db st rs).length = rs.length := by
  intro rs
  induction rs with
  | nil => intro st; rfl
  | cons r rest ih =>
    intro st
    simp only [fallbackOutcomes]
    cases h : db.insertOne st r with
    | ok st' => simp only [List.length_cons, ih]
    | error e => simp only [List.length_cons, ih]

lemma insertFallback_counts {σ : Type} (db : Db σ) :
    ∀ (rs : List Rec) (st : σ),
      (insertFallback db st rs).1 = countOks (fallbackOutcomes db st rs)
      ∧ (insertFallback db st rs).2.1
        = count409 (fallbackOutcomes db st rs) := by
  intro rs
  induction rs with
  | nil => intro st; exact ⟨rfl, rfl⟩
  | cons r rest ih =>
    intro st
    simp only [insertFallback, fallbackOutcomes]
    cases h : db.insertOne st r with
    | ok st' =>
      obtain ⟨ih1, ih2⟩ := ih st'
      constructor
      · simp [countOks, List.filter_cons, ih1]
      · simp [count409, List.filter_cons, ih2]
    | error e =>
      obtain ⟨ih1, ih2⟩ := ih st
      cases e with
      | conflict409 =>
        constructor
        · simp [countOks, List.filter_cons, ih1]
        · simp [count409, List.filter_cons, ih2]
      | otherErr =>
        constructor
        · simp [countOks, List.filter_cons, ih1]
        · simp [count409, List.filter_cons, ih2]

lemma outcomes_partition :
    ∀ l : List (Except DbErr Unit),
      countOks l + count409 l + countOtherErrs l = l.length := by
  intro l
  induction l with
  | nil => rfl
  | cons o rest ih =>
    cases o with
    | ok u =>
      simp only [countOks, count409, countOtherErrs, List.filter_cons,
        List.length_cons] at ih ⊢
      simp
      omega
    | error e =>
      cases e with
      | conflict409 =>
        simp only [countOks, count409, countOtherErrs, List.filter_cons,
          List.length_cons] at ih ⊢
        simp
        omega
      | otherErr =>
        simp only [countOks, count409, countOtherErrs, List.filter_cons,
          List.length_cons] at ih ⊢
        simp
        omega

lemma updatePhase_le {σ : Type} (db : Db σ) :
    ∀ (l : List (Nat × Rec)) (st : σ), (updatePhase db st l).1 ≤ l.length := by
  intro l
  induction l with
  | nil => intro st; exact Nat.le_refl 0
  | cons p rest ih =>
    intro st
    obtain ⟨id, r⟩ := p
    simp only [updatePhase]
    cases h : db.updateById st id r with
    | ok st' =>
      simp only [List.length_cons]
      exact Nat.succ_le_succ (ih st')
    | error e =>
      simp only [List.length_cons]
      exact Nat.le_succ_of_le (ih st)

/-- When the batch insert of a chunk's to-insert list fails, `_process_chunk`
computes its counts through the per-record fallback loop and the update
phase. -/
lemma processChunk_batch_fail {σ : Type} (db : Db σ) (st : σ) (src : String)
    (chunk : List Rec) (e : DbErr)
    (hne : (classifyChunk (existingMap db st src chunk) chunk).1 ≠ [])
    (hfail : db.insertMany st
      (classifyChunk (existingMap db st src chunk) chunk).1 = .error e) :
    processChunk db st src chunk
      = ((insertFallback db st
            (classifyChunk (existingMap db st src chunk) chunk).1).1,
          (insertFallback db st
            (classifyChunk (existingMap db st src chunk) chunk).1).2.1
            + (updatePhase db (insertFallback db st
                (classifyChunk (existingMap db st src chunk) chunk).1).2.2
                (classifyChunk (existingMap db st src chunk) chunk).2).1,
          (updatePhase db (insertFallback db st
              (classifyChunk (existingMap db st src chunk) chunk).1).2.2
              (classifyChunk (existingMap db st src chunk) chunk).2).2) := by
  simp only [processChunk, insertPhase, if_neg hne, hfail]

/-- C7 — insert-race fallback: in every chunk whose batch insert fails, the
engine attempts each to-insert record individually (one outcome per record),
counts the successful individual inserts as inserted, and counts each
individual insert that fails with a uniqueness violation as an update —
never as a failure. -/
theorem insert_race_fallback {σ : Type} (db : Db σ) (st : σ) (src : String)
    (chunk : List Rec) (e : DbErr)
    (hne : (classifyChunk (existingMap db st src chunk) chunk).1 ≠ [])
    (hfail : db.insertMany st
      (classifyChunk (existingMap db st src chunk) chunk).1 = .error e) :
    (fallbackOutcomes db st
        (classifyChunk (existingMap db st src chunk) chunk).1).length
      = (classifyChunk (existingMap db st src chunk) chunk).1.length
    ∧ (processChunk db st src chunk).1
      = countOks (fallbackOutcomes db st
          (classifyChunk (existingMap db st src chunk) chunk).1)
    ∧ (processChunk db st src chunk).2.1
      = count409 (fallbackOutcomes db st
          (classifyChunk (existingMap db st src chunk) chunk).1)
        + (updatePhase db (insertFallback db st
            (classifyChunk (existingMap db st src chunk) chunk).1).2.2
            (classifyChunk (existingMap db st src chunk) chunk).2).1 := by
  refine ⟨fallbackOutcomes_length db _ st, ?_, ?_⟩
  · rw [processChunk_batch_fail db st src chunk e hne hfail]
    exact (insertFallback_counts db _ st).1
  · rw [processChunk_batch_fail db st src chunk e hne hfail]
    rw [(insertFallback_counts db _ st).2]

/-- Witness for C7: with a store already holding `recNullGz`'s key and a
batch insert that fails, the fallback individually inserts the fresh record
and reclassifies the conflicting one as an update. -/
theorem insert_race_fallback_witness :
    ((classifyChunk (existingMap dbBatchFails storeOneNull "S"
        [mkRec 7 "D0", recNullGz]) [mkRec 7 "D0", recNullGz]).1 ≠ []
      ∧ dbBatchFails.insertMany storeOneNull
          (classifyChunk (existingMap dbBatchFails storeOneNull "S"
            [mkRec 7 "D0", recNullGz]) [mkRec 7 "D0", recNullGz]).1
          = .error .otherErr)
    ∧ ((fallbackOutcomes dbBatchFails storeOneNull
          (classifyChunk (existingMap dbBatchFails storeOneNull "S"
            [mkRec 7 "D0", recNullGz]) [mkRec 7 "D0", recNullGz]).1).length
        = (classifyChunk (existingMap dbBatchFails storeOneNull "S"
            [mkRec 7 "D0", recNullGz]) [mkRec 7 "D0", recNullGz]).1.length
      ∧ (processChunk dbBatchFails storeOneNull "S"
          [mkRec 7 "D0", recNullGz]).1
        = countOks (fallbackOutcomes dbBatchFails storeOneNull
            (classifyChunk (existingMap dbBatchFails storeOneNull "S"
              [mkRec 7 "D0", recNullGz]) [mkRec 7 "D0", recNullGz]).1)
      ∧ (processChunk dbBatchFails storeOneNull "S"
          [mkRec 7 "D0", recNullGz]).2.1
        = count409 (fallbackOutcomes dbBatchFails storeOneNull
            (classifyChunk (existingMap dbBatchFails storeOneNull "S"
              [mkRec 7 "D0", recNullGz]) [mkRec 7 "D0", recNullGz]).1)
          + (updatePhase dbBatchFails (insertFallback dbBatchFails
              storeOneNull (classifyChunk (existingMap dbBatchFails
                storeOneNull "S" [mkRec 7 "D0", recNullGz])
                [mkRec 7 "D0", recNullGz]).1).2.2
              (classifyChunk (existingMap dbBatchFails storeOneNull "S"
                [mkRec 7 "D0", recNullGz]) [mkRec 7 "D0", recNullGz]).2).1) :=
  ⟨⟨by decide, rfl⟩,
    insert_race_fallback dbBatchFails storeOneNull "S"
      [mkRec 7 "D0", recNullGz] .otherErr (by decide) rfl⟩

/-- C9 — silent record loss in the fallback insert path: the per-record
outcomes partition into successes, uniqueness violations and other errors;
an other-error outcome is counted neither as inserted nor updated nor
failed, so a chunk that completes without raising can report
`inserted + updated` strictly below its record count. -/
theorem fallback_silent_loss {σ : Type} (db : Db σ) (st : σ) (src : String)
    (chunk : List Rec) (e : DbErr)
    (hfail : db.insertMany st
      (classifyChunk (existingMap db st src chunk) chunk).1 = .error e)
    (hother : 0 < countOtherErrs (fallbackOutcomes db st
      (classifyChunk (existingMap db st src chunk) chunk).1)) :
    countOks (fallbackOutcomes db st
        (classifyChunk (existingMap db st src chunk) chunk).1)
      + count409 (fallbackOutcomes db st
          (classifyChunk (existingMap db st src chunk) chunk).1)
      + countOtherErrs (fallbackOutcomes db st
          (classifyChunk (existingMap db st src chunk) chunk).1)
      = (classifyChunk (existingMap db st src chunk) chunk).1.length
    ∧ (processChunk db st src chunk).1 + (processChunk db st src chunk).2.1
        < chunk.length := by
  have hlen := fallbackOutcomes_length db
    (classifyChunk (existingMap db st src chunk) chunk).1 st
  have hpart := outcomes_partition (fallbackOutcomes db st
    (classifyChunk (existingMap db st src chunk) chunk).1)
  have hne : (classifyChunk (existingMap db st src chunk) chunk).1 ≠ [] := by
    intro hc
    rw [hc] at hother
    simp [fallbackOutcomes, countOtherErrs] at hother
  have hclen := classifyChunk_length (existingMap db st src chunk) chunk
  have hule := updatePhase_le db
    (classifyChunk (existingMap db st src chunk) chunk).2
    (insertFallback db st
      (classifyChunk (existingMap db st src chunk) chunk).1).2.2
  constructor
  · rw [hpart, hlen]
  · rw [processChunk_batch_fail db st src chunk e hne hfail]
    dsimp only
    rw [(insertFallback_counts db _ st).1, (insertFallback_counts db _ st).2]
    rw [hlen] at hpart
    omega

/-- Witness for C9: a collaborator whose batch and individual inserts all
fail with a non-uniqueness error; the single-record chunk completes with
`inserted + updated = 0 < 1`. -/
theorem fallback_silent_loss_witness :
    (dbInsertsFail.insertMany emptyStore
        (classifyChunk (existingMap dbInsertsFail emptyStore "S"
          [mkRec 0 "D"]) [mkRec 0 "D"]).1 = .error .otherErr
      ∧ 0 < countOtherErrs (fallbackOutcomes dbInsertsFail emptyStore
          (classifyChunk (existingMap dbInsertsFail emptyStore "S"
            [mkRec 0 "D"]) [mkRec 0 "D"]).1))
    ∧ (countOks (fallbackOutcomes dbInsertsFail emptyStore
          (classifyChunk (existingMap dbInsertsFail emptyStore "S"
            [mkRec 0 "D"]) [mkRec 0 "D"]).1)
        + count409 (fallbackOutcomes dbInsertsFail emptyStore
            (classifyChunk (existingMap dbInsertsFail emptyStore "S"
              [mkRec 0 "D"]) [mkRec 0 "D"]).1)
        + countOtherErrs (fallbackOutcomes dbInsertsFail emptyStore
            (classifyChunk (existingMap dbInsertsFail emptyStore "S"
              [mkRec 0 "D"]) [mkRec 0 "D"]).1)
        = (classifyChunk (existingMap dbInsertsFail emptyStore "S"
            [mkRec 0 "D"]) [mkRec 0 "D"]).1.length
      ∧ (processChunk dbInsertsFail emptyStore "S" [mkRec 0 "D"]).1
          + (processChunk dbInsertsFail emptyStore "S" [mkRec 0 "D"]).2.1
          < ([mkRec 0 "D"] : List Rec).length) :=
  ⟨⟨rfl, by decide⟩,
    fallback_silent_loss dbInsertsFail emptyStore "S" [mkRec 0 "D"]
      .otherErr rfl (by decide)⟩

/-! ### Early-exit sampling lemmas -/

lemma statusOf_ne_already_synced (n : Nat) :
    statusOf n ≠ "already_synced" := by
  unfold statusOf
  split
  · decide
  · decide

/-- The engine on a nonempty record set above the sample size: sample the
first 50 records, then either exit `already_synced` or continue with the
guarded loop over the remaining records. -/
lemma upsert_sample_branch {σ : Type} (db : Db σ) (st : σ) (src : String)
    (records : List Rec) (cs : Nat) (hemp : ¬records = [])
    (h51 : 50 < records.length) :
    upsert_records_with_composite_key db st src records cs
      = (if (processChunk db st src (records.take 50)).1 = 0
            ∧ 0 < (processChunk db st src (records.take 50)).2.1
            ∧ checkAllRecordsExist db
                (processChunk db st src (records.take 50)).2.2 src records
              = true
        then (⟨"already_synced", 0,
            (processChunk db st src (records.take 50)).2.1,
            (processChunk db st src (records.take 50)).2.1, 0, []⟩,
          (processChunk db st src (records.take 50)).2.2)
        else
          (⟨statusOf (chunkLoop (realProc db src)
                (processChunk db st src (records.take 50)).2.2
                (toChunks cs (records.drop 50)) 1).2.2.1,
            (processChunk db st src (records.take 50)).1
              + (chunkLoop (realProc db src)
                  (processChunk db st src (records.take 50)).2.2
                  (toChunks cs (records.drop 50)) 1).1,
            (processChunk db st src (records.take 50)).2.1
              + (chunkLoop (realProc db src)
                  (processChunk db st src (records.take 50)).2.2
                  (toChunks cs (records.drop 50)) 1).2.1,
            (processChunk db st src (records.take 50)).1
              + (chunkLoop (realProc db src)
                  (processChunk db st src (records.take 50)).2.2
                  (toChunks cs (records.drop 50)) 1).1
              + ((processChunk db st src (records.take 50)).2.1
                + (chunkLoop (realProc db src)
                    (processChunk db st src (records.take 50)).2.2
                    (toChunks cs (records.drop 50)) 1).2.1),
            (chunkLoop (realProc db src)
                (processChunk db st src (records.take 50)).2.2
                (toChunks cs (records.drop 50)) 1).2.2.1,
            (chunkLoop (realProc db src)
                (processChunk db st src (records.take 50)).2.2
                (toChunks cs (records.drop 50)) 1).2.2.2.1⟩,
          (chunkLoop (realProc db src)
              (processChunk db st src (records.take 50)).2.2
              (toChunks cs (records.drop 50)) 1).2.2.2.2)) := by
  simp only [upsert_records_with_composite_key, if_neg hemp, if_pos h51]

/-- The engine on a nonempty record set of at most the sample size: just the
guarded loop over all records. -/
lemma upsert_small_branch {σ : Type} (db : Db σ) (st : σ) (src : String)
    (records : List Rec) (cs : Nat) (hemp : ¬records = [])
    (h51 : ¬50 < records.length) :
    upsert_records_with_composite_key db st src records cs
      = (⟨statusOf (chunkLoop (realProc db src) st
            (toChunks cs records) 1).2.2.1,
          (chunkLoop (realProc db src) st (toChunks cs records) 1).1,
          (chunkLoop (realProc db src) st (toChunks cs records) 1).2.1,
          (chunkLoop (realProc db src) st (toChunks cs records) 1).1
            + (chunkLoop (realProc db src) st (toChunks cs records) 1).2.1,
          (chunkLoop (realProc db src) st (toChunks cs records) 1).2.2.1,
          (chunkLoop (realProc db src) st (toChunks cs records) 1).2.2.2.1⟩,
        (chunkLoop (realProc db src) st (toChunks cs records) 1).2.2.2.2) := by
  simp only [upsert_records_with_composite_key, if_neg hemp, if_neg h51]

lemma foldlM_memCounts (st : Store) (src : String) :
    ∀ (rds : List Val) (acc : Nat),
      (List.foldlM (fun acc rd =>
          (memDb.countBySourceDate st src rd).map (acc + ·)) acc rds
        : Except DbErr Nat)
      = .ok (acc + (rds.map (memCountFn st src)).sum) := by
  intro rds
  induction rds with
  | nil =>
    intro acc
    simp only [List.foldlM, List.map_nil, List.sum_nil, Nat.add_zero]
    rfl
  | cons rd rest ih =>
    intro acc
    have hstep : (memDb.countBySourceDate st src rd).map (acc + ·)
        = Except.ok (acc + memCountFn st src rd) := rfl
    simp only [List.foldlM, hstep]
    have hbind : (Except.ok (acc + memCountFn st src rd) >>=
        fun s => (List.foldlM (fun acc rd =>
          (memDb.countBySourceDate st src rd).map (acc + ·)) s rest
          : Except DbErr Nat))
        = List.foldlM (fun acc rd =>
            (memDb.countBySourceDate st src rd).map (acc + ·))
            (acc + memCountFn st src rd) rest := rfl
    rw [hbind, ih]
    simp only [List.map_cons, List.sum_cons, Except.ok.injEq]
    omega

/-- `_check_all_records_exist` against the in-memory store says exactly: the
summed exact counts over the distinct truthy release dates reach the record
count (for a nonempty record set). -/
lemma checkAll_memDb (st : Store) (src : String) (records : List Rec)
    (hne : records ≠ []) :
    (checkAllRecordsExist memDb st src records = true
      ↔ records.length ≤ (((records.filterMap (fun r =>
          if truthy (pyGet r.release_date) then some (pyGet r.release_date)
          else Option.none)).eraseDups).map (memCountFn st src)).sum) := by
  unfold checkAllRecordsExist
  by_cases hrds : ((records.filterMap (fun r =>
      if truthy (pyGet r.release_date) then some (pyGet r.release_date)
      else Option.none)).eraseDups) = []
  · rw [if_pos hrds, hrds]
    simp only [List.map_nil, List.sum_nil, Nat.le_zero]
    constructor
    · intro h; exact absurd h (by decide)
    · intro h
      exact absurd (List.length_eq_zero.mp h) hne
  · rw [if_neg hrds]
    rw [foldlM_memCounts st src _ 0]
    simp only [Nat.zero_add, decide_eq_true_eq]

/-- C3 — early-exit sampling: the engine returns `status = "already_synced"`
without processing the records after the sample if and only if there are
more than 50 records, the 50-record sample classifies to zero inserts and at
least one update, and the summed exact counts of stored rows matching
`(source, release_date)` over the distinct truthy release dates of the full
record set reach the record count; otherwise, above the sample size,
processing continues with the guarded chunk loop over the records after the
sample. -/
theorem early_exit_sampling (st : Store) (src : String) (records : List Rec)
    (cs : Nat) :
    ((upsert_records_with_composite_key memDb st src records cs).1.status
        = "already_synced"
      ↔ (50 < records.length
          ∧ (processChunk memDb st src (records.take 50)).1 = 0
          ∧ 0 < (processChunk memDb st src (records.take 50)).2.1
          ∧ records.length ≤ (((records.filterMap (fun r =>
              if truthy (pyGet r.release_date) then some (pyGet r.release_date)
              else Option.none)).eraseDups).map
                (memCountFn (processChunk memDb st src
                  (records.take 50)).2.2 src)).sum))
    ∧ (50 < records.length →
        ¬((processChunk memDb st src (records.take 50)).1 = 0
          ∧ 0 < (processChunk memDb st src (records.take 50)).2.1
          ∧ records.length ≤ (((records.filterMap (fun r =>
              if truthy (pyGet r.release_date) then some (pyGet r.release_date)
              else Option.none)).eraseDups).map
                (memCountFn (processChunk memDb st src
                  (records.take 50)).2.2 src)).sum) →
        upsert_records_with_composite_key memDb st src records cs
          = (⟨statusOf (chunkLoop (realProc memDb src)
                (processChunk memDb st src (records.take 50)).2.2
                (toChunks cs (records.drop 50)) 1).2.2.1,
              (processChunk memDb st src (records.take 50)).1
                + (chunkLoop (realProc memDb src)
                    (processChunk memDb st src (records.take 50)).2.2
                    (toChunks cs (records.drop 50)) 1).1,
              (processChunk memDb st src (records.take 50)).2.1
                + (chunkLoop (realProc memDb src)
                    (processChunk memDb st src (records.take 50)).2.2
                    (toChunks cs (records.drop 50)) 1).2.1,
              (processChunk memDb st src (records.take 50)).1
                + (chunkLoop (realProc memDb src)
                    (processChunk memDb st src (records.take 50)).2.2
                    (toChunks cs (records.drop 50)) 1).1
                + ((processChunk memDb st src (records.take 50)).2.1
                  + (chunkLoop (realProc memDb src)
                      (processChunk memDb st src (records.take 50)).2.2
                      (toChunks cs (records.drop 50)) 1).2.1),
              (chunkLoop (realProc memDb src)
                  (processChunk memDb st src (records.take 50)).2.2
                  (toChunks cs (records.drop 50)) 1).2.2.1,
              (chunkLoop (realProc memDb src)
                  (processChunk memDb st src (records.take 50)).2.2
                  (toChunks cs (records.drop 50)) 1).2.2.2.1⟩,
            (chunkLoop (realProc memDb src)
                (processChunk memDb st src (records.take 50)).2.2
                (toChunks cs (records.drop 50)) 1).2.2.2.2)) := by
  by_cases hemp : records = []
  · subst hemp
    have hz : upsert_records_with_composite_key memDb st src [] cs
        = (⟨"no_records", 0, 0, 0, 0, []⟩, st) := by
      simp [upsert_records_with_composite_key]
    constructor
    · rw [hz]
      constructor
      · intro h
        have h' : ("no_records" : String) = "already_synced" := h
        exact absurd h' (by decide)
      · rintro ⟨h51, _⟩; exact absurd h51 (by decide)
    · intro h51; exact absurd h51 (by decide)
  · by_cases h51 : 50 < records.length
    · rw [upsert_sample_branch memDb st src records cs hemp h51]
      have hch := checkAll_memDb
        (processChunk memDb st src (records.take 50)).2.2 src records hemp
      by_cases hcond : (processChunk memDb st src (records.take 50)).1 = 0
          ∧ 0 < (processChunk memDb st src (records.take 50)).2.1
          ∧ checkAllRecordsExist memDb
              (processChunk memDb st src (records.take 50)).2.2 src records
            = true
      · rw [if_pos hcond]
        constructor
        · constructor
          · intro _
            exact ⟨h51, hcond.1, hcond.2.1, hch.mp hcond.2.2⟩
          · intro _; rfl
        · rintro _ hnot
          exact absurd ⟨hcond.1, hcond.2.1, hch.mp hcond.2.2⟩ hnot
      · rw [if_neg hcond]
        constructor
        · constructor
          · intro hs
            exact absurd hs (statusOf_ne_already_synced _)
          · rintro ⟨_, h1, h2, h3⟩
            exact absurd ⟨h1, h2, hch.mpr h3⟩ hcond
        · intro _ _; rfl
    · rw [upsert_small_branch memDb st src records cs hemp h51]
      constructor
      · constructor
        · intro hs
          exact absurd hs (statusOf_ne_already_synced _)
        · rintro ⟨h51', _⟩
          exact absurd h51' h51
      · intro h51'
        exact absurd h51' h51

/-- Witness for C3: 51 fresh records against an empty store — the sample
inserts all 50, the early-exit condition fails, and the engine continues
with the guarded loop over the one remaining record. -/
theorem early_exit_sampling_witness :
    (50 < recs51.length
      ∧ ¬((processChunk memDb emptyStore "S" (recs51.take 50)).1 = 0
          ∧ 0 < (processChunk memDb emptyStore "S" (recs51.take 50)).2.1
          ∧ recs51.length ≤ (((recs51.filterMap (fun r =>
              if truthy (pyGet r.release_date) then some (pyGet r.release_date)
              else Option.none)).eraseDups).map
                (memCountFn (processChunk memDb emptyStore "S"
                  (recs51.take 50)).2.2 "S")).sum))
    ∧ upsert_records_with_composite_key memDb emptyStore "S" recs51 25
        = (⟨statusOf (chunkLoop (realProc memDb "S")
              (processChunk memDb emptyStore "S" (recs51.take 50)).2.2
              (toChunks 25 (recs51.drop 50)) 1).2.2.1,
            (processChunk memDb emptyStore "S" (recs51.take 50)).1
              + (chunkLoop (realProc memDb "S")
                  (processChunk memDb emptyStore "S" (recs51.take 50)).2.2
                  (toChunks 25 (recs51.drop 50)) 1).1,
            (processChunk memDb emptyStore "S" (recs51.take 50)).2.1
              + (chunkLoop (realProc memDb "S")
                  (processChunk memDb emptyStore "S" (recs51.take 50)).2.2
                  (toChunks 25 (recs51.drop 50)) 1).2.1,
            (processChunk memDb emptyStore "S" (recs51.take 50)).1
              + (chunkLoop (realProc memDb "S")
                  (processChunk memDb emptyStore "S" (recs51.take 50)).2.2
                  (toChunks 25 (recs51.drop 50)) 1).1
              + ((processChunk memDb emptyStore "S" (recs51.take 50)).2.1
                + (chunkLoop (realProc memDb "S")
                    (processChunk memDb emptyStore "S" (recs51.take 50)).2.2
                    (toChunks 25 (recs51.drop 50)) 1).2.1),
            (chunkLoop (realProc memDb "S")
                (processChunk memDb emptyStore "S" (recs51.take 50)).2.2
                (toChunks 25 (recs51.drop 50)) 1).2.2.1,
            (chunkLoop (realProc memDb "S")
                (processChunk memDb emptyStore "S" (recs51.take 50)).2.2
                (toChunks 25 (recs51.drop 50)) 1).2.2.2.1⟩,
          (chunkLoop (realProc memDb "S")
              (processChunk memDb emptyStore "S" (recs51.take 50)).2.2
              (toChunks 25 (recs51.drop 50)) 1).2.2.2.2) :=
  ⟨⟨by decide, by decide⟩,
    (early_exit_sampling emptyStore "S" recs51 25).2 (by decide) (by decide)⟩

/-! ### Idempotence: run-one and run-two store lemmas -/

lemma enumFrom_append {α : Type} (xs ys : List α) :
    ∀ n : Nat, List.enumFrom n (xs ++ ys)
      = List.enumFrom n xs ++ List.enumFrom (n + xs.length) ys := by
  induction xs with
  | nil => intro n; simp [List.enumFrom]
  | cons x rest ih =>
    intro n
    have hn : n + 1 + rest.length = n + (rest.length + 1) := by omega
    simp only [List.cons_append, List.enumFrom, List.length_cons,
      List.append_eq, ih (n + 1), hn]

lemma enumFrom_snd_mem {α : Type} {p : Nat × α} {l : List α} {n : Nat}
    (h : p ∈ List.enumFrom n l) : p.2 ∈ l := by
  have := List.enumFrom_map_snd n l
  rw [← this]
  exact List.mem_map_of_mem _ h

lemma toChunks_join_aux (cs : Nat) :
    ∀ (n : Nat) (l : List Rec), l.length ≤ n → (toChunks cs l).flatten = l := by
  intro n
  induction n with
  | zero =>
    intro l hl
    have hl0 : l = [] := List.length_eq_zero.mp (Nat.le_zero.mp hl)
    subst hl0
    rw [toChunks]
    by_cases h0 : cs = 0
    · rw [if_pos h0]; simp
    · rw [if_neg h0, dif_pos rfl]; rfl
  | succ n ih =>
    intro l hl
    rw [toChunks]
    by_cases h0 : cs = 0
    · rw [if_pos h0]; simp
    · rw [if_neg h0]
      by_cases hle : l = []
      · rw [dif_pos hle, hle]; rfl
      · rw [dif_neg hle]
        rw [List.flatten_cons]
        have hlen : (l.drop cs).length ≤ n := by
          rw [List.length_drop]
          have h1 : 0 < l.length := List.length_pos.mpr hle
          have h2 : 0 < cs := Nat.pos_of_ne_zero h0
          omega
        rw [ih _ hlen]
        exact List.take_append_drop cs l

lemma toChunks_flatten (cs : Nat) (l : List Rec) :
    (toChunks cs l).flatten = l :=
  toChunks_join_aux cs l.length l (Nat.le_refl _)

lemma toChunks_mem (cs : Nat) (l : List Rec) (c : List Rec)
    (hc : c ∈ toChunks cs l) : ∀ r ∈ c, r ∈ l := by
  intro r hr
  rw [← toChunks_flatten cs l]
  exact List.mem_flatten.mpr ⟨c, hc, hr⟩

lemma storeKeys_eq_keyMap (st : Store) :
    storeKeys st = (KeyMap st).map Prod.snd := by
  simp [storeKeys, KeyMap, List.map_map]

lemma rows_length_eq_keyMap (st : Store) :
    st.rows.length = (KeyMap st).length := by
  simp [KeyMap]

lemma eq_of_fst_eq_of_nodup {α : Type} :
    ∀ {l : List (Nat × α)}, (l.map Prod.fst).Nodup →
      ∀ {p q : Nat × α}, p ∈ l → q ∈ l → p.1 = q.1 → p = q := by
  intro l
  induction l with
  | nil => intro _ p q hp; cases hp
  | cons x rest ih =>
    intro hnd p q hp hq h
    simp only [List.map_cons, List.nodup_cons] at hnd
    obtain ⟨hx, hnd'⟩ := hnd
    rcases List.mem_cons.mp hp with rfl | hp'
    · rcases List.mem_cons.mp hq with rfl | hq'
      · rfl
      · exfalso
        apply hx
        rw [h]
        exact List.mem_map_of_mem _ hq'
    · rcases List.mem_cons.mp hq with rfl | hq'
      · exfalso
        apply hx
        rw [← h]
        exact List.mem_map_of_mem _ hp'
      · exact ih hnd' hp' hq' h

lemma dbKey_eq_of_normKey_eq (records : List Rec)
    (hcons : CodeConsistent records) (w r : Rec) (hw : w ∈ records)
    (hr : r ∈ records) (h : normKey w = normKey r) : dbKey w = dbKey r := by
  have h1 : pyGet w.source = pyGet r.source := congrArg (fun t => t.1) h
  have h2 : pyStr (pyGet w.code) = pyStr (pyGet r.code) :=
    congrArg (fun t => t.2.1) h
  have h3 : pyGet w.release_date = pyGet r.release_date :=
    congrArg (fun t => t.2.2.1) h
  have h4 : pyGet w.geozip = pyGet r.geozip := congrArg (fun t => t.2.2.2) h
  have hc : pyGet w.code = pyGet r.code := hcons w hw r hr h2
  simp [dbKey, h1, h3, h4, hc]

lemma conflictsWith_of_mem (st : Store) (r : Rec)
    (h : dbKey r ∈ storeKeys st) : conflictsWith st r = true := by
  rw [conflictsWith, List.any_eq_true]
  obtain ⟨k, hk, hkey⟩ := List.mem_map.mp h
  exact ⟨k, hk, by simp [hkey]⟩

lemma insertFallback_allConflict :
    ∀ (rs : List Rec) (st : Store),
      (∀ r ∈ rs, conflictsWith st r = true) →
      insertFallback memDb st rs = (0, rs.length, st) := by
  intro rs
  induction rs with
  | nil => intro st h; rfl
  | cons r rest ih =>
    intro st h
    have hr := h r (List.mem_cons_self r rest)
    have hone : memDb.insertOne st r = .error .conflict409 := by
      show memInsertOne st r = _
      rw [memInsertOne, if_pos hr]
    simp only [insertFallback, hone]
    rw [ih st (fun x hx => h x (List.mem_cons_of_mem r hx))]
    rfl

lemma insertPhase_allConflict (rs : List Rec) (st : Store)
    (h : ∀ r ∈ rs, conflictsWith st r = true) :
    insertPhase memDb st rs = (0, rs.length, st) := by
  by_cases hne : rs = []
  · subst hne; rfl
  · have hmany : memDb.insertMany st rs = .error .conflict409 := by
      show memInsertMany st rs = _
      rw [memInsertMany, if_pos]
      obtain ⟨r0, hr0⟩ := List.exists_mem_of_ne_nil rs hne
      rw [Bool.or_eq_true]
      exact Or.inl (List.any_eq_true.mpr ⟨r0, hr0, h r0 hr0⟩)
    rw [insertPhase, if_neg hne, hmany]
    exact insertFallback_allConflict rs st h

/-- The update phase, when every entry's id and composite key already label a
stored row: every update succeeds, and the store's id/key view is left
pointwise unchanged. -/
lemma updatePhase_keyfixed (records : List Rec) :
    ∀ (toUpd : List (Nat × Rec)) (st : Store),
      (st.rows.map Prod.fst).Nodup →
      RowsFrom records st →
      (∀ e ∈ toUpd, e.2 ∈ records ∧ (e.1, dbKey e.2) ∈ KeyMap st) →
      (updatePhase memDb st toUpd).1 = toUpd.length
      ∧ KeyMap (updatePhase memDb st toUpd).2 = KeyMap st
      ∧ (updatePhase memDb st toUpd).2.rows.map Prod.fst
          = st.rows.map Prod.fst
      ∧ RowsFrom records (updatePhase memDb st toUpd).2
      ∧ (updatePhase memDb st toUpd).2.nextId = st.nextId := by
  intro toUpd
  induction toUpd with
  | nil =>
    intro st _ hrf _
    exact ⟨rfl, rfl, rfl, hrf, rfl⟩
  | cons e rest ih =>
    intro st hnd hrf hent
    obtain ⟨id, rec⟩ := e
    obtain ⟨hrec, hkm⟩ := hent (id, rec) (List.mem_cons_self _ _)
    rw [KeyMap] at hkm
    obtain ⟨q, hq, hqeq⟩ := List.mem_map.mp hkm
    have hq1 : q.1 = id := congrArg Prod.fst hqeq
    have hq2 : dbKey q.2 = dbKey rec := congrArg Prod.snd hqeq
    have hupd : memDb.updateById st id rec
        = .ok ⟨st.rows.map (fun p => if p.1 = id then (id, rec) else p),
            st.nextId⟩ := rfl
    have hfst : (st.rows.map
          (fun p => if p.1 = id then (id, rec) else p)).map Prod.fst
        = st.rows.map Prod.fst := by
      rw [List.map_map]
      apply List.map_congr_left
      intro p _
      simp only [Function.comp]
      by_cases hp : p.1 = id
      · rw [if_pos hp]
        exact hp.symm
      · rw [if_neg hp]
    have hKM : KeyMap ⟨st.rows.map
          (fun p => if p.1 = id then (id, rec) else p), st.nextId⟩
        = KeyMap st := by
      simp only [KeyMap]
      rw [List.map_map]
      apply List.map_congr_left
      intro p hp
      simp only [Function.comp]
      by_cases hpid : p.1 = id
      · rw [if_pos hpid]
        have hpq : p = q := eq_of_fst_eq_of_nodup hnd hp hq (by rw [hpid, hq1])
        rw [hpq, hq1, hq2]
      · rw [if_neg hpid]
    have hrf1 : RowsFrom records ⟨st.rows.map
        (fun p => if p.1 = id then (id, rec) else p), st.nextId⟩ := by
      intro p' hp'
      simp only at hp'
      obtain ⟨p, hp, hrepl⟩ := List.mem_map.mp hp'
      by_cases hpid : p.1 = id
      · rw [if_pos hpid] at hrepl
        rw [← hrepl]
        exact hrec
      · rw [if_neg hpid] at hrepl
        rw [← hrepl]
        exact hrf p hp
    have hnd1 : ((⟨st.rows.map
          (fun p => if p.1 = id then (id, rec) else p), st.nextId⟩ :
          Store).rows.map Prod.fst).Nodup := by
      simp only
      rw [hfst]
      exact hnd
    have hent1 : ∀ e ∈ rest, e.2 ∈ records
        ∧ (e.1, dbKey e.2) ∈ KeyMap ⟨st.rows.map
            (fun p => if p.1 = id then (id, rec) else p), st.nextId⟩ := by
      intro e he
      obtain ⟨h1, h2⟩ := hent e (List.mem_cons_of_mem _ he)
      rw [hKM]
      exact ⟨h1, h2⟩
    obtain ⟨ih1, ih2, ih3, ih4, ih5⟩ := ih _ hnd1 hrf1 hent1
    simp only [updatePhase, hupd]
    refine ⟨?_, ?_, ?_, ?_, ?_⟩
    · rw [ih1]
      rfl
    · rw [ih2, hKM]
    · rw [ih3]
      simp only
      rw [hfst]
    · exact ih4
    · rw [ih5]

/-- A chunk processed against a store that already covers every record's
composite key: nothing is inserted, every chunk record is counted as an
update (directly or through the 409 fallback), and the store's id/key view
is unchanged. -/
lemma processChunk_synced (records : List Rec) (src : String)
    (hcons : CodeConsistent records) (chunk : List Rec) (st : Store)
    (hsub : ∀ r ∈ chunk, r ∈ records)
    (hrf : RowsFrom records st) (hkc : KeysCover records st)
    (hnd : (st.rows.map Prod.fst).Nodup) :
    (processChunk memDb st src chunk).1 = 0
    ∧ (processChunk memDb st src chunk).2.1 = chunk.length
    ∧ KeyMap (processChunk memDb st src chunk).2.2 = KeyMap st
    ∧ (processChunk memDb st src chunk).2.2.rows.map Prod.fst
        = st.rows.map Prod.fst
    ∧ RowsFrom records (processChunk memDb st src chunk).2.2
    ∧ (processChunk memDb st src chunk).2.2.nextId = st.nextId := by
  have hins : ∀ r ∈ (classifyChunk (existingMap memDb st src chunk) chunk).1,
      conflictsWith st r = true := by
    intro r hr
    obtain ⟨hrc, _⟩ := classifyChunk_ins_mem _ _ r hr
    exact conflictsWith_of_mem st r (hkc r (hsub r hrc))
  have hip := insertPhase_allConflict
    (classifyChunk (existingMap memDb st src chunk) chunk).1 st hins
  have hent : ∀ e ∈ (classifyChunk (existingMap memDb st src chunk) chunk).2,
      e.2 ∈ records ∧ (e.1, dbKey e.2) ∈ KeyMap st := by
    intro e he
    obtain ⟨hec, helk⟩ := classifyChunk_upd_mem _ _ e he
    have herec : e.2 ∈ records := hsub _ hec
    refine ⟨herec, ?_⟩
    have hmemex := pyDictLookup_mem _ _ _ helk
    obtain ⟨w, hw, hnk, _, _, _⟩ :=
      existingMap_mem st src chunk (normKey e.2, e.1) hmemex
    have hwrec : w ∈ records := hrf _ hw
    have hdb : dbKey w = dbKey e.2 :=
      dbKey_eq_of_normKey_eq records hcons w e.2 hwrec herec hnk
    rw [KeyMap]
    rw [← hdb]
    exact List.mem_map_of_mem _ hw
  obtain ⟨hu1, hu2, hu3, hu4, hu5⟩ := updatePhase_keyfixed records
    (classifyChunk (existingMap memDb st src chunk) chunk).2 st hnd hrf hent
  have hproc : processChunk memDb st src chunk
      = (0, (classifyChunk (existingMap memDb st src chunk) chunk).1.length
          + (updatePhase memDb st
              (classifyChunk (existingMap memDb st src chunk) chunk).2).1,
        (updatePhase memDb st
            (classifyChunk (existingMap memDb st src chunk) chunk).2).2) := by
    simp only [processChunk, hip]
  rw [hproc]
  have hlen := classifyChunk_length (existingMap memDb st src chunk) chunk
  refine ⟨rfl, ?_, hu2, hu3, hu4, hu5⟩
  simp only
  rw [hu1]
  omega

/-- The guarded loop over chunks of already-covered records: no inserts, all
records counted as updates, no failures, and the store's id/key view is
unchanged. -/
lemma chunkLoop_synced (records : List Rec) (src : String)
    (hcons : CodeConsistent records) :
    ∀ (chunks : List (List Rec)) (st : Store) (num : Nat),
      (∀ c ∈ chunks, ∀ r ∈ c, r ∈ records) →
      RowsFrom records st → KeysCover records st →
      (st.rows.map Prod.fst).Nodup →
      (chunkLoop (realProc memDb src) st chunks num).1 = 0
      ∧ (chunkLoop (realProc memDb src) st chunks num).2.1
          = (chunks.map List.length).sum
      ∧ (chunkLoop (realProc memDb src) st chunks num).2.2.1 = 0
      ∧ (chunkLoop (realProc memDb src) st chunks num).2.2.2.1 = []
      ∧ KeyMap (chunkLoop (realProc memDb src) st chunks num).2.2.2.2
          = KeyMap st
      ∧ RowsFrom records
          (chunkLoop (realProc memDb src) st chunks num).2.2.2.2
      ∧ ((chunkLoop (realProc memDb src) st chunks num).2.2.2.2.rows.map
          Prod.fst) = st.rows.map Prod.fst := by
  intro chunks
  induction chunks with
  | nil =>
    intro st num _ hrf _ _
    exact ⟨rfl, rfl, rfl, rfl, rfl, hrf, rfl⟩
  | cons c rest ih =>
    intro st num hsub hrf hkc hnd
    obtain ⟨hp1, hp2, hp3, hp4, hp5, hp6⟩ := processChunk_synced records src
      hcons c st (hsub c (List.mem_cons_self c rest)) hrf hkc hnd
    have hkc1 : KeysCover records (processChunk memDb st src c).2.2 := by
      intro r hr
      rw [storeKeys_eq_keyMap, hp3, ← storeKeys_eq_keyMap]
      exact hkc r hr
    have hnd1 : ((processChunk memDb st src c).2.2.rows.map Prod.fst).Nodup := by
      rw [hp4]
      exact hnd
    obtain ⟨ih1, ih2, ih3, ih4, ih5, ih6, ih7⟩ :=
      ih (processChunk memDb st src c).2.2 (num + 1)
        (fun c' hc' => hsub c' (List.mem_cons_of_mem c hc')) hp5 hkc1 hnd1
    have hreal : realProc memDb src st c
        = (.ok ((processChunk memDb st src c).1,
            (processChunk memDb st src c).2.1),
          (processChunk memDb st src c).2.2) := rfl
    have hloop : chunkLoop (realProc memDb src) st (c :: rest) num
        = ((processChunk memDb st src c).1
            + (chunkLoop (realProc memDb src)
                (processChunk memDb st src c).2.2 rest (num + 1)).1,
          (processChunk memDb st src c).2.1
            + (chunkLoop (realProc memDb src)
                (processChunk memDb st src c).2.2 rest (num + 1)).2.1,
          (chunkLoop (realProc memDb src)
              (processChunk memDb st src c).2.2 rest (num + 1)).2.2.1,
          (chunkLoop (realProc memDb src)
              (processChunk memDb st src c).2.2 rest (num + 1)).2.2.2.1,
          (chunkLoop (realProc memDb src)
              (processChunk memDb st src c).2.2 rest (num + 1)).2.2.2.2) := by
      simp only [chunkLoop, hreal]
    rw [hloop]
    refine ⟨?_, ?_, ih3, ih4, ?_, ih6, ?_⟩
    · simp only
      rw [hp1, ih1]
    · simp only [List.map_cons, List.sum_cons]
      rw [hp2, ih2]
    · rw [ih5, hp3]
    · rw [ih7, hp4]

lemma classifyChunk_all_insert (ex : List ((Val × String × Val × Val) × Nat)) :
    ∀ chunk : List Rec,
      (∀ r ∈ chunk, pyDictLookup ex (normKey r) = Option.none) →
      classifyChunk ex chunk = (chunk, []) := by
  intro chunk
  induction chunk with
  | nil => intro _; rfl
  | cons r rest ih =>
    intro h
    have hr := h r (List.mem_cons_self r rest)
    have hrest := ih (fun x hx => h x (List.mem_cons_of_mem r hx))
    simp only [classifyChunk, hrest, hr]

/-- A chunk of fresh records (keys disjoint from the stored prefix) is
classified entirely for insert and batch-inserted in one call; the store
grows by exactly the chunk, ids continuing in sequence. -/
lemma processChunk_fresh (src : String)
    (records done chunk rest : List Rec)
    (hrec : records = done ++ (chunk ++ rest))
    (hcons : CodeConsistent records)
    (hnd : (records.map dbKey).Nodup)
    (st : Store) (hrows : st.rows = done.enumFrom 0)
    (hnext : st.nextId = done.length) :
    processChunk memDb st src chunk
      = (chunk.length, 0,
        ⟨(done ++ chunk).enumFrom 0, (done ++ chunk).length⟩) := by
  have hdone : ∀ w ∈ done, w ∈ records := by
    intro w hw
    rw [hrec]
    exact List.mem_append_left _ hw
  have hchunk : ∀ r ∈ chunk, r ∈ records := by
    intro r hr
    rw [hrec]
    exact List.mem_append_right _ (List.mem_append_left _ hr)
  have hnd2 : ((done.map dbKey) ++ ((chunk ++ rest).map dbKey)).Nodup := by
    rw [← List.map_append, ← hrec]
    exact hnd
  have hdisj : ∀ w ∈ done, ∀ r ∈ chunk, dbKey w ≠ dbKey r := by
    intro w hw r hr heq
    have h1 : dbKey w ∈ done.map dbKey := List.mem_map_of_mem _ hw
    have h2 : dbKey w ∈ (chunk ++ rest).map dbKey := by
      rw [heq]
      exact List.mem_map_of_mem _ (List.mem_append_left _ hr)
    exact (List.nodup_append.mp hnd2).2.2 h1 h2
  have hlookup : ∀ r ∈ chunk,
      pyDictLookup (existingMap memDb st src chunk) (normKey r)
        = Option.none := by
    intro r hr
    apply pyDictLookup_eq_none
    intro p hp hk
    obtain ⟨w, hwrow, hnk, _, _, _⟩ := existingMap_mem st src chunk p hp
    have hwdone : w ∈ done := by
      have : (p.2, w).2 ∈ done := by
        apply enumFrom_snd_mem (n := 0)
        rw [← hrows]
        exact hwrow
      exact this
    have hdb : dbKey w = dbKey r :=
      dbKey_eq_of_normKey_eq records hcons w r (hdone w hwdone)
        (hchunk r hr) (by rw [hnk, hk])
    exact hdisj w hwdone r hr hdb
  have hcls := classifyChunk_all_insert (existingMap memDb st src chunk)
    chunk hlookup
  by_cases hnechunk : chunk = []
  · subst hnechunk
    have : processChunk memDb st src [] = (0, 0, st) := rfl
    rw [this]
    obtain ⟨rows, nid⟩ := st
    simp only at hrows hnext
    subst hrows hnext
    simp
  · have hrowdone : ∀ p ∈ st.rows, p.2 ∈ done := by
      intro p hp
      apply enumFrom_snd_mem (n := 0)
      rw [← hrows]
      exact hp
    have hconf : chunk.any (fun r => conflictsWith st r) = false := by
      rw [Bool.eq_false_iff]
      intro hc
      rw [List.any_eq_true] at hc
      obtain ⟨r, hr, hcr⟩ := hc
      rw [conflictsWith, List.any_eq_true] at hcr
      obtain ⟨p, hp, hdec⟩ := hcr
      rw [decide_eq_true_eq] at hdec
      exact hdisj p.2 (hrowdone p hp) r hr hdec
    have hndchunk : (chunk.map dbKey).Nodup := by
      have h1 := (List.nodup_append.mp hnd2).2.1
      rw [List.map_append] at h1
      exact (List.nodup_append.mp h1).1
    have hmany : memDb.insertMany st chunk
        = .ok ⟨st.rows ++ chunk.enumFrom st.nextId,
            st.nextId + chunk.length⟩ := by
      show memInsertMany st chunk = _
      rw [memInsertMany, if_neg]
      rw [Bool.or_eq_true, not_or]
      constructor
      · rw [hconf]
        exact Bool.false_ne_true
      · rw [Bool.not_eq_true, Bool.not_eq_false']
        exact decide_eq_true hndchunk
    have hip : insertPhase memDb st chunk
        = (chunk.length, 0, ⟨st.rows ++ chunk.enumFrom st.nextId,
            st.nextId + chunk.length⟩) := by
      rw [insertPhase, if_neg hnechunk, hmany]
    have hproc : processChunk memDb st src chunk
        = (chunk.length, 0 + 0, ⟨st.rows ++ chunk.enumFrom st.nextId,
            st.nextId + chunk.length⟩) := by
      simp only [processChunk, hcls, hip]
      rfl
    rw [hproc, hrows, hnext]
    have hrows2 : (done ++ chunk).enumFrom 0
        = done.enumFrom 0 ++ chunk.enumFrom done.length := by
      rw [enumFrom_append]
      simp
    rw [hrows2, List.length_append]

/-- The guarded loop over chunks of fresh records: everything is inserted in
order, nothing updated, nothing failed. -/
lemma chunkLoop_fresh (src : String) (records : List Rec)
    (hcons : CodeConsistent records) (hnd : (records.map dbKey).Nodup) :
    ∀ (chunks : List (List Rec)) (done rest : List Rec) (num : Nat),
      records = done ++ rest → chunks.flatten = rest →
      chunkLoop (realProc memDb src) ⟨done.enumFrom 0, done.length⟩ chunks num
        = (rest.length, 0, 0, [],
          ⟨records.enumFrom 0, records.length⟩) := by
  intro chunks
  induction chunks with
  | nil =>
    intro done rest num hrec hflat
    have hrest : rest = [] := hflat.symm
    subst hrest
    rw [List.append_nil] at hrec
    subst hrec
    rfl
  | cons c cs' ih =>
    intro done rest num hrec hflat
    have hrest : rest = c ++ cs'.flatten := by
      rw [← hflat]
      rfl
    have hrec2 : records = done ++ (c ++ cs'.flatten) := by
      rw [hrec, hrest]
    have hpc := processChunk_fresh src records done c cs'.flatten hrec2
      hcons hnd ⟨done.enumFrom 0, done.length⟩ rfl rfl
    have hreal : realProc memDb src ⟨done.enumFrom 0, done.length⟩ c
        = (.ok (c.length, 0),
          ⟨(done ++ c).enumFrom 0, (done ++ c).length⟩) := by
      rw [realProc, hpc]
    have hih := ih (done ++ c) cs'.flatten (num + 1)
      (by rw [hrec2, List.append_assoc]) rfl
    have hloop : chunkLoop (realProc memDb src)
        ⟨done.enumFrom 0, done.length⟩ (c :: cs') num
        = (c.length + (chunkLoop (realProc memDb src)
            ⟨(done ++ c).enumFrom 0, (done ++ c).length⟩ cs' (num + 1)).1,
          0 + (chunkLoop (realProc memDb src)
            ⟨(done ++ c).enumFrom 0, (done ++ c).length⟩ cs' (num + 1)).2.1,
          (chunkLoop (realProc memDb src)
            ⟨(done ++ c).enumFrom 0, (done ++ c).length⟩ cs' (num + 1)).2.2.1,
          (chunkLoop (realProc memDb src)
            ⟨(done ++ c).enumFrom 0,
              (done ++ c).length⟩ cs' (num + 1)).2.2.2.1,
          (chunkLoop (realProc memDb src)
            ⟨(done ++ c).enumFrom 0,
              (done ++ c).length⟩ cs' (num + 1)).2.2.2.2) := by
      simp only [chunkLoop, hreal]
    rw [hloop, hih, hrest]
    simp [List.length_append]

/-- Run one from the empty store: every record is inserted, and the final
store is exactly the records enumerated from id 0. -/
lemma run1_fresh (src : String) (records : List Rec) (cs : Nat)
    (hcons : CodeConsistent records) (hnd : (records.map dbKey).Nodup) :
    (upsert_records_with_composite_key memDb emptyStore src records cs).2
      = ⟨records.enumFrom 0, records.length⟩ := by
  by_cases hemp : records = []
  · subst hemp
    rfl
  · by_cases h51 : 50 < records.length
    · rw [upsert_sample_branch memDb emptyStore src records cs hemp h51]
      have hpc0 := processChunk_fresh src records [] (records.take 50)
        (records.drop 50) (by simp [List.take_append_drop]) hcons hnd
        emptyStore rfl rfl
      have hlen50 : (records.take 50).length = 50 := by
        rw [List.length_take]
        omega
      have hcond : ¬((processChunk memDb emptyStore src
          (records.take 50)).1 = 0
          ∧ 0 < (processChunk memDb emptyStore src (records.take 50)).2.1
          ∧ checkAllRecordsExist memDb (processChunk memDb emptyStore src
              (records.take 50)).2.2 src records = true) := by
        intro hc
        rw [hpc0] at hc
        have h0 : (records.take 50).length = 0 := hc.1
        omega
      rw [if_neg hcond, hpc0]
      have hloop := chunkLoop_fresh src records hcons hnd
        (toChunks cs (records.drop 50)) ([] ++ records.take 50)
        (records.drop 50) 1 (by simp [List.take_append_drop])
        (toChunks_flatten cs _)
      rw [hloop]
    · rw [upsert_small_branch memDb emptyStore src records cs hemp h51]
      have hloop := chunkLoop_fresh src records hcons hnd
        (toChunks cs records) [] records 1 (by simp)
        (toChunks_flatten cs records)
      have hloop2 : chunkLoop (realProc memDb src) emptyStore
          (toChunks cs records) 1
          = (records.length, 0, 0, [],
            ⟨records.enumFrom 0, records.length⟩) := by
        have hempty : emptyStore
            = (⟨([] : List Rec).enumFrom 0, ([] : List Rec).length⟩ : Store) :=
          rfl
        rw [hempty]
        exact hloop
      rw [hloop2]

lemma storeKeys_enumFrom (records : List Rec) (n m : Nat) :
    storeKeys ⟨records.enumFrom n, m⟩ = records.map dbKey := by
  show (records.enumFrom n).map (fun p => dbKey p.2) = records.map dbKey
  have h1 : (records.enumFrom n).map (fun p => dbKey p.2)
      = ((records.enumFrom n).map Prod.snd).map dbKey := by
    rw [List.map_map]
    rfl
  rw [h1, List.enumFrom_map_snd]

/-- C1 — idempotence of reconciliation: for a deduplicated record set with
consistently typed codes, running `upsert_records_with_composite_key` twice
against a store that starts empty yields, after the second run, zero inserts
and `records_updated = len(records)` (or `status = "already_synced"`), and
the stored row count is unchanged by the second run. -/
theorem upsert_idempotent (records : List Rec) (src : String) (cs : Nat)
    (hnd : (records.map dbKey).Nodup) (hcons : CodeConsistent records) :
    ((upsert_records_with_composite_key memDb
        (upsert_records_with_composite_key memDb emptyStore src records cs).2
        src records cs).1.status = "already_synced"
      ∨ ((upsert_records_with_composite_key memDb
          (upsert_records_with_composite_key memDb emptyStore src records
            cs).2 src records cs).1.records_inserted = 0
        ∧ (upsert_records_with_composite_key memDb
            (upsert_records_with_composite_key memDb emptyStore src records
              cs).2 src records cs).1.records_updated = records.length))
    ∧ (upsert_records_with_composite_key memDb
        (upsert_records_with_composite_key memDb emptyStore src records
          cs).2 src records cs).2.rows.length
      = (upsert_records_with_composite_key memDb emptyStore src records
          cs).2.rows.length := by
  rw [run1_fresh src records cs hcons hnd]
  have hrf : RowsFrom records
      (⟨records.enumFrom 0, records.length⟩ : Store) := by
    intro p hp
    exact enumFrom_snd_mem hp
  have hkc : KeysCover records
      (⟨records.enumFrom 0, records.length⟩ : Store) := by
    intro r hr
    rw [storeKeys_enumFrom]
    exact List.mem_map_of_mem _ hr
  have hndid : (((⟨records.enumFrom 0, records.length⟩ : Store)).rows.map
      Prod.fst).Nodup := by
    show ((records.enumFrom 0).map Prod.fst).Nodup
    rw [List.enumFrom_map_fst]
    exact List.nodup_range' 0 records.length
  by_cases hemp : records = []
  · subst hemp
    exact ⟨Or.inr ⟨rfl, rfl⟩, rfl⟩
  · by_cases h51 : 50 < records.length
    · rw [upsert_sample_branch memDb ⟨records.enumFrom 0, records.length⟩
        src records cs hemp h51]
      have hlen50 : (records.take 50).length = 50 := by
        rw [List.length_take]
        omega
      obtain ⟨hp1, hp2, hp3, hp4, hp5, hp6⟩ := processChunk_synced records src
        hcons (records.take 50) ⟨records.enumFrom 0, records.length⟩
        (fun r hr => List.take_subset _ _ hr) hrf hkc hndid
      have hrowlen : (processChunk memDb
          ⟨records.enumFrom 0, records.length⟩ src
          (records.take 50)).2.2.rows.length
          = ((⟨records.enumFrom 0, records.length⟩ : Store)).rows.length := by
        have h1 := congrArg List.length hp4
        simpa using h1
      by_cases hchk : checkAllRecordsExist memDb
          (processChunk memDb ⟨records.enumFrom 0, records.length⟩ src
            (records.take 50)).2.2 src records = true
      · have hcond : (processChunk memDb
            ⟨records.enumFrom 0, records.length⟩ src
            (records.take 50)).1 = 0
            ∧ 0 < (processChunk memDb
                ⟨records.enumFrom 0, records.length⟩ src
                (records.take 50)).2.1
            ∧ checkAllRecordsExist memDb (processChunk memDb
                ⟨records.enumFrom 0, records.length⟩ src
                (records.take 50)).2.2 src records = true := by
          refine ⟨hp1, ?_, hchk⟩
          rw [hp2, hlen50]
          omega
        rw [if_pos hcond]
        exact ⟨Or.inl rfl, hrowlen⟩
      · have hcond : ¬((processChunk memDb
            ⟨records.enumFrom 0, records.length⟩ src
            (records.take 50)).1 = 0
            ∧ 0 < (processChunk memDb
                ⟨records.enumFrom 0, records.length⟩ src
                (records.take 50)).2.1
            ∧ checkAllRecordsExist memDb (processChunk memDb
                ⟨records.enumFrom 0, records.length⟩ src
                (records.take 50)).2.2 src records = true) := by
          intro hc
          exact hchk hc.2.2
        rw [if_neg hcond]
        have hkc1 : KeysCover records (processChunk memDb
            ⟨records.enumFrom 0, records.length⟩ src
            (records.take 50)).2.2 := by
          intro r hr
          rw [storeKeys_eq_keyMap, hp3, ← storeKeys_eq_keyMap]
          exact hkc r hr
        have hnd1 : ((processChunk memDb
            ⟨records.enumFrom 0, records.length⟩ src
            (records.take 50)).2.2.rows.map Prod.fst).Nodup := by
          rw [hp4]
          exact hndid
        obtain ⟨hl1, hl2, hl3, hl4, hl5, hl6, hl7⟩ := chunkLoop_synced records
          src hcons (toChunks cs (records.drop 50))
          (processChunk memDb ⟨records.enumFrom 0, records.length⟩ src
            (records.take 50)).2.2 1
          (fun c hc r hr =>
            List.drop_subset _ _ (toChunks_mem cs _ c hc r hr))
          hp5 hkc1 hnd1
        have hsum : ((toChunks cs (records.drop 50)).map List.length).sum
            = (records.drop 50).length := by
          have h1 : ((toChunks cs (records.drop 50)).map List.length).sum
              = (toChunks cs (records.drop 50)).flatten.length := by
            rw [List.length_flatten]
          rw [h1, toChunks_flatten]
        constructor
        · right
          constructor
          · show (processChunk memDb ⟨records.enumFrom 0, records.length⟩
                src (records.take 50)).1
              + (chunkLoop (realProc memDb src)
                  (processChunk memDb ⟨records.enumFrom 0, records.length⟩
                    src (records.take 50)).2.2
                  (toChunks cs (records.drop 50)) 1).1 = 0
            rw [hp1, hl1]
          · show (processChunk memDb ⟨records.enumFrom 0, records.length⟩
                src (records.take 50)).2.1
              + (chunkLoop (realProc memDb src)
                  (processChunk memDb ⟨records.enumFrom 0, records.length⟩
                    src (records.take 50)).2.2
                  (toChunks cs (records.drop 50)) 1).2.1 = records.length
            rw [hp2, hl2, hsum, hlen50, List.length_drop]
            omega
        · show (chunkLoop (realProc memDb src)
              (processChunk memDb ⟨records.enumFrom 0, records.length⟩
                src (records.take 50)).2.2
              (toChunks cs (records.drop 50)) 1).2.2.2.2.rows.length
            = ((⟨records.enumFrom 0, records.length⟩ : Store)).rows.length
          have h1 := congrArg List.length hl7
          simp only [List.length_map] at h1
          rw [h1, hrowlen]
    · rw [upsert_small_branch memDb ⟨records.enumFrom 0, records.length⟩
        src records cs hemp h51]
      obtain ⟨hl1, hl2, hl3, hl4, hl5, hl6, hl7⟩ := chunkLoop_synced records
        src hcons (toChunks cs records)
        ⟨records.enumFrom 0, records.length⟩ 1
        (fun c hc r hr => toChunks_mem cs _ c hc r hr)
        hrf hkc hndid
      have hsum : ((toChunks cs records).map List.length).sum
          = records.length := by
        have h1 : ((toChunks cs records).map List.length).sum
            = (toChunks cs records).flatten.length := by
          rw [List.length_flatten]
        rw [h1, toChunks_flatten]
      constructor
      · right
        constructor
        · show (chunkLoop (realProc memDb src)
              ⟨records.enumFrom 0, records.length⟩
              (toChunks cs records) 1).1 = 0
          exact hl1
        · show (chunkLoop (realProc memDb src)
              ⟨records.enumFrom 0, records.length⟩
              (toChunks cs records) 1).2.1 = records.length
          rw [hl2, hsum]
      · show (chunkLoop (realProc memDb src)
            ⟨records.enumFrom 0, records.length⟩
            (toChunks cs records) 1).2.2.2.2.rows.length
          = ((⟨records.enumFrom 0, records.length⟩ : Store)).rows.length
        have h1 := congrArg List.length hl7
        simpa using h1

/-- Witness for C1: three distinct prepared records, chunk size 1000. -/
theorem upsert_idempotent_witness :
    ((recs3.map dbKey).Nodup ∧ CodeConsistent recs3)
      ∧ (((upsert_records_with_composite_key memDb
          (upsert_records_with_composite_key memDb emptyStore "S" recs3
            1000).2 "S" recs3 1000).1.status = "already_synced"
        ∨ ((upsert_records_with_composite_key memDb
            (upsert_records_with_composite_key memDb emptyStore "S" recs3
              1000).2 "S" recs3 1000).1.records_inserted = 0
          ∧ (upsert_records_with_composite_key memDb
              (upsert_records_with_composite_key memDb emptyStore "S" recs3
                1000).2 "S" recs3 1000).1.records_updated = recs3.length))
      ∧ (upsert_records_with_composite_key memDb
          (upsert_records_with_composite_key memDb emptyStore "S" recs3
            1000).2 "S" recs3 1000).2.rows.length
        = (upsert_records_with_composite_key memDb emptyStore "S" recs3
            1000).2.rows.length) :=
  ⟨⟨by decide, by decide⟩,
    upsert_idempotent recs3 "S" 1000 (by decide) (by decide)⟩

end CPT
